import Mathlib

/-!
Verification of the AlgoMint contract-analyzer service
(`backend/app/services/contract_analyzer.py`).

The analyzer is embedded shallowly: the Python `ast` node shapes which the
analyzer consumes are mirrored as inductive types, `ast.unparse` is mirrored
for that subset, and the regex-based text scanning is mirrored by a small
regular-expression engine (Brzozowski derivatives).  Python's `ast.parse` is
external library code; it is modelled as an oracle: the analyzer takes the
parse outcome (`Except String Module`) alongside the raw source text.
CPython iterates a `set` of strings in an order that depends on the process
hash seed; that iteration order is modelled as an explicit parameter `σ`
(a function reordering the insertion-ordered list of discovered names).
-/

namespace AlgoMint

/-! ### String and character utilities -/

/-- ASCII view of Python's regex `\w` (`re.UNICODE` is irrelevant here:
the analyzed sources are ASCII). -/
def isWordChar (c : Char) : Bool :=
  (('a' ≤ c && c ≤ 'z') || ('A' ≤ c && c ≤ 'Z') || ('0' ≤ c && c ≤ '9') || c = '_')

/-- ASCII view of Python's regex `\s`. -/
def isSpaceChar (c : Char) : Bool :=
  c = ' ' || c = '\t' || c = '\n' || c = '\r' || c = '\x0b' || c = '\x0c'

def isDigitChar (c : Char) : Bool :=
  '0' ≤ c && c ≤ '9'

/-- `str.lower()` for the ASCII range. -/
def lowerChar (c : Char) : Char :=
  if 'A' ≤ c && c ≤ 'Z' then Char.ofNat (c.toNat + 32) else c

def lowerStr (s : String) : String :=
  String.mk (s.data.map lowerChar)

/-- Boolean prefix test on character lists. -/
def isPrefixOfB : List Char → List Char → Bool
  | [], _ => true
  | _ :: _, [] => false
  | a :: as, b :: bs => a = b && isPrefixOfB as bs

/-- Boolean infix (substring) test on character lists: Python's `x in s`. -/
def isInfixOfB (needle : List Char) (hay : List Char) : Bool :=
  isPrefixOfB needle hay ||
    match hay with
    | [] => false
    | _ :: t => isInfixOfB needle t

/-- Python's `needle in hay` on strings. -/
def strIn (needle hay : String) : Bool :=
  isInfixOfB needle.data hay.data

/-- Insertion-order duplicate removal: the list of elements of `l` keeping
the first occurrence of each; this is the insertion order of a Python set
built by adding the elements of `l` one by one. -/
def dedupFirst (l : List String) : List String :=
  go l []
where
  go : List String → List String → List String
    | [], acc => acc.reverse
    | x :: xs, acc => if x ∈ acc then go xs acc else go xs (x :: acc)

/-! ### A small regular-expression engine (Brzozowski derivatives)

Only the constructs used by the analyzer's patterns are supported:
character classes (positive or negated), concatenation, alternation,
optionality and Kleene star.  `research` mirrors `re.search`: does any
substring match?  Greedy vs. lazy repetition is irrelevant for that
question, so `.*?` and `.*` are both modelled by `star`. -/

inductive RE where
  | rnone : RE
  | eps : RE
  | cls (pos : Bool) (cs : List Char) : RE
  | seq (a b : RE) : RE
  | alt (a b : RE) : RE
  | star (a : RE) : RE
deriving Repr

def RE.nullable : RE → Bool
  | .rnone => false
  | .eps => true
  | .cls _ _ => false
  | .seq a b => a.nullable && b.nullable
  | .alt a b => a.nullable || b.nullable
  | .star _ => true

def RE.matchesChar (pos : Bool) (cs : List Char) (c : Char) : Bool :=
  if pos then cs.contains c else !(cs.contains c)

def RE.deriv : RE → Char → RE
  | .rnone, _ => .rnone
  | .eps, _ => .rnone
  | .cls pos cs, c => if RE.matchesChar pos cs c then .eps else .rnone
  | .seq a b, c =>
      if a.nullable then .alt (.seq (a.deriv c) b) (b.deriv c)
      else .seq (a.deriv c) b
  | .alt a b, c => .alt (a.deriv c) (b.deriv c)
  | .star a, c => .seq (a.deriv c) (.star a)

/-- Does some prefix of `l` match `r`? -/
def RE.matchesSomePrefix : RE → List Char → Bool
  | r, [] => r.nullable
  | r, c :: cs => r.nullable || (r.deriv c).matchesSomePrefix cs

/-- `re.search(r, s)`: does some substring of `l` match `r`? -/
def RE.searchList : RE → List Char → Bool
  | r, [] => r.nullable
  | r, l@(_ :: cs) => r.matchesSomePrefix l || r.searchList cs

def research (r : RE) (s : String) : Bool :=
  r.searchList s.data

/-- Literal string regex (`re.escape`d text). -/
def rlit (s : String) : RE :=
  s.data.foldr (fun c r => .seq (.cls true [c]) r) .eps

def rcat (rs : List RE) : RE :=
  rs.foldr .seq .eps

/-- `\s*` -/
def rwsStar : RE :=
  .star (.cls true [' ', '\t', '\n', '\r', '\x0b', '\x0c'])

/-- `.` (any character except newline). -/
def rdot : RE := .cls false ['\n']

/-- `\w` -/
def rword : RE :=
  .alt (.cls true ['_'])
    (.alt (.cls true "abcdefghijklmnopqrstuvwxyz".data)
      (.alt (.cls true "ABCDEFGHIJKLMNOPQRSTUVWXYZ".data)
        (.cls true "0123456789".data)))

/-! ### Python AST subset

The node shapes consumed by `contract_analyzer.py`.  Operator nodes
(`ast.Add`, `ast.Eq`, …) carry no data, so binary operators are stored as
their rendered symbol. -/

inductive PyExpr where
  | name (id : String)
  | attribute (value : PyExpr) (attr : String)
  | call (func : PyExpr) (args : List PyExpr) (keywords : List (Option String × PyExpr))
  | constInt (n : Nat)
  | constStr (s : String)
  | constBool (b : Bool)
  | constNone
  | binop (l : PyExpr) (op : String) (r : PyExpr)
  | compare (l : PyExpr) (op : String) (r : PyExpr)
  | subscript (value : PyExpr) (idx : PyExpr)
  | listLit (elts : List PyExpr)
deriving Repr

inductive PyStmt where
  | assign (targets : List PyExpr) (value : PyExpr)
  | annAssign (target : PyExpr) (ann : PyExpr) (value : Option PyExpr)
  | augAssign (target : PyExpr) (op : String) (value : PyExpr)
  | exprStmt (e : PyExpr)
  | ret (e : Option PyExpr)
  | assertStmt (test : PyExpr) (msg : Option PyExpr)
  | pass
  | funcDef (nm : String) (args : List (String × Option PyExpr))
      (body : List PyStmt) (decorators : List PyExpr)
      (returns : Option PyExpr) (lineno : Nat)
  | classDef (nm : String) (bases : List PyExpr) (body : List PyStmt) (lineno : Nat)
deriving Repr

/-- A Python module: `ast.Module(body=...)`. -/
structure PyModule where
  body : List PyStmt
deriving Repr

/-! ### `ast.unparse` for the subset -/

def joinComma (xs : List String) : String :=
  String.intercalate ", " xs

mutual

def unparseExpr : PyExpr → String
  | .name id => id
  | .attribute v a => unparseExpr v ++ "." ++ a
  | .call f args kws =>
      unparseExpr f ++ "(" ++ joinComma (unparseExprList args ++ unparseKwList kws) ++ ")"
  | .constInt n => toString n
  | .constStr s => "'" ++ s ++ "'"
  | .constBool b => if b then "True" else "False"
  | .constNone => "None"
  | .binop l op r => unparseExpr l ++ " " ++ op ++ " " ++ unparseExpr r
  | .compare l op r => unparseExpr l ++ " " ++ op ++ " " ++ unparseExpr r
  | .subscript v i => unparseExpr v ++ "[" ++ unparseExpr i ++ "]"
  | .listLit xs => "[" ++ joinComma (unparseExprList xs) ++ "]"

def unparseExprList : List PyExpr → List String
  | [] => []
  | e :: es => unparseExpr e :: unparseExprList es

def unparseKwList : List (Option String × PyExpr) → List String
  | [] => []
  | (some a, v) :: ks => (a ++ "=" ++ unparseExpr v) :: unparseKwList ks
  | (none, v) :: ks => ("**" ++ unparseExpr v) :: unparseKwList ks

end

def unparseOptExpr : Option PyExpr → String
  | none => "None"
  | some e => unparseExpr e

def unparseParam : String × Option PyExpr → String
  | (nm, none) => nm
  | (nm, some ann) => nm ++ ": " ++ unparseExpr ann

mutual

def unparseStmtInd (ind : String) : PyStmt → String
  | .assign tgts v =>
      ind ++ String.intercalate " = " ((unparseExprList tgts).map id) ++ " = " ++ unparseExpr v
  | .annAssign t ann (some v) =>
      ind ++ unparseExpr t ++ ": " ++ unparseExpr ann ++ " = " ++ unparseExpr v
  | .annAssign t ann none => ind ++ unparseExpr t ++ ": " ++ unparseExpr ann
  | .augAssign t op v => ind ++ unparseExpr t ++ " " ++ op ++ "= " ++ unparseExpr v
  | .exprStmt e => ind ++ unparseExpr e
  | .ret (some e) => ind ++ "return " ++ unparseExpr e
  | .ret none => ind ++ "return"
  | .assertStmt t (some m) => ind ++ "assert " ++ unparseExpr t ++ ", " ++ unparseExpr m
  | .assertStmt t none => ind ++ "assert " ++ unparseExpr t
  | .pass => ind ++ "pass"
  | .funcDef nm args body decs ret _ =>
      String.intercalate "\n"
        ((decs.map (fun d => ind ++ "@" ++ unparseExpr d)) ++
          [ind ++ "def " ++ nm ++ "(" ++ joinComma (args.map unparseParam) ++ ")" ++
            (match ret with | none => "" | some r => " -> " ++ unparseExpr r) ++ ":"] ++
          unparseStmtListInd (ind ++ "    ") body)
  | .classDef nm bases body _ =>
      String.intercalate "\n"
        ([ind ++ "class " ++ nm ++
            (if bases.isEmpty then "" else "(" ++ joinComma (unparseExprList bases) ++ ")") ++ ":"] ++
          unparseStmtListInd (ind ++ "    ") body)

def unparseStmtListInd (ind : String) : List PyStmt → List String
  | [] => []
  | s :: ss => unparseStmtInd ind s :: unparseStmtListInd ind ss

end

def unparseStmt (s : PyStmt) : String :=
  unparseStmtInd "" s

/-- `source = "".join(ast.unparse(node) + "\n" for node in body)` as used by
`_find_inner_txns` and `_find_storage_access`. -/
def bodySource (body : List PyStmt) : String :=
  String.join (body.map (fun s => unparseStmt s ++ "\n"))

/-! ### `ast.walk` (breadth-first traversal) -/

inductive PyNode where
  | mod (m : PyModule)
  | stmt (s : PyStmt)
  | expr (e : PyExpr)
deriving Repr

/-- Child nodes in field order.  The `arguments` holder of a `FunctionDef`
is flattened into its annotation expressions; operator nodes are skipped
(they are childless and match nothing the analyzer looks for). -/
def exprChildren : PyExpr → List PyNode
  | .name _ => []
  | .attribute v _ => [.expr v]
  | .call f args kws => .expr f :: (args.map .expr ++ kws.map (fun k => .expr k.2))
  | .constInt _ => []
  | .constStr _ => []
  | .constBool _ => []
  | .constNone => []
  | .binop l _ r => [.expr l, .expr r]
  | .compare l _ r => [.expr l, .expr r]
  | .subscript v i => [.expr v, .expr i]
  | .listLit xs => xs.map .expr

def stmtChildren : PyStmt → List PyNode
  | .assign ts v => ts.map .expr ++ [.expr v]
  | .annAssign t ann v => [.expr t, .expr ann] ++ (v.map .expr).toList
  | .augAssign t _ v => [.expr t, .expr v]
  | .exprStmt e => [.expr e]
  | .ret e => (e.map .expr).toList
  | .assertStmt t m => [.expr t] ++ (m.map .expr).toList
  | .pass => []
  | .funcDef _ args body decs ret _ =>
      (args.filterMap (fun a => a.2.map .expr)) ++ body.map .stmt ++
        decs.map .expr ++ (ret.map .expr).toList
  | .classDef _ bases body _ => bases.map .expr ++ body.map .stmt

def nodeChildren : PyNode → List PyNode
  | .mod m => m.body.map .stmt
  | .stmt s => stmtChildren s
  | .expr e => exprChildren e

mutual

def exprWeight : PyExpr → Nat
  | .name _ => 1
  | .attribute v _ => 1 + exprWeight v
  | .call f args kws => 1 + exprWeight f + exprListWeight args + kwListWeight kws
  | .constInt _ => 1
  | .constStr _ => 1
  | .constBool _ => 1
  | .constNone => 1
  | .binop l _ r => 1 + exprWeight l + exprWeight r
  | .compare l _ r => 1 + exprWeight l + exprWeight r
  | .subscript v i => 1 + exprWeight v + exprWeight i
  | .listLit xs => 1 + exprListWeight xs

def exprListWeight : List PyExpr → Nat
  | [] => 0
  | e :: es => exprWeight e + exprListWeight es

def kwListWeight : List (Option String × PyExpr) → Nat
  | [] => 0
  | (_, v) :: ks => exprWeight v + kwListWeight ks

end

def optExprWeight : Option PyExpr → Nat
  | none => 0
  | some e => exprWeight e

def paramListWeight : List (String × Option PyExpr) → Nat
  | [] => 0
  | (_, ann) :: ps => optExprWeight ann + paramListWeight ps

mutual

def stmtWeight : PyStmt → Nat
  | .assign ts v => 1 + exprListWeight ts + exprWeight v
  | .annAssign t ann v => 1 + exprWeight t + exprWeight ann + optExprWeight v
  | .augAssign t _ v => 1 + exprWeight t + exprWeight v
  | .exprStmt e => 1 + exprWeight e
  | .ret e => 1 + optExprWeight e
  | .assertStmt t m => 1 + exprWeight t + optExprWeight m
  | .pass => 1
  | .funcDef _ args body decs ret _ =>
      1 + paramListWeight args + stmtListWeight body + exprListWeight decs + optExprWeight ret
  | .classDef _ bases body _ => 1 + exprListWeight bases + stmtListWeight body

def stmtListWeight : List PyStmt → Nat
  | [] => 0
  | s :: ss => stmtWeight s + stmtListWeight ss

end

def nodeWeight : PyNode → Nat
  | .mod m => 1 + stmtListWeight m.body
  | .stmt s => stmtWeight s
  | .expr e => exprWeight e

/-- Breadth-first walk driven by fuel; `nodeWeight` of the root counts the
nodes of the tree, so the fuel never runs out. -/
def bfsWalk : Nat → List PyNode → List PyNode
  | 0, _ => []
  | _ + 1, [] => []
  | fuel + 1, n :: rest => n :: bfsWalk fuel (rest ++ nodeChildren n)

def walkNode (root : PyNode) : List PyNode :=
  bfsWalk (nodeWeight root) [root]

/-- `ast.walk(ast.Module(body=body_nodes))`. -/
def walkBody (body : List PyStmt) : List PyNode :=
  walkNode (.mod ⟨body⟩)

/-! ### Decorator helpers -/

/-- `_get_decorator_name`. -/
def getDecoratorName : PyExpr → String
  | .attribute v a => getDecoratorName v ++ "." ++ a
  | .name id => id
  | .call f _ _ => getDecoratorName f
  | e => unparseExpr e

/-- Values produced by `ast.literal_eval` on decorator keyword arguments,
with `vunparsed` standing for the fall-back "unparsed source text" a
non-literal argument is kept as. -/
inductive PyVal where
  | vstr (s : String)
  | vint (n : Nat)
  | vbool (b : Bool)
  | vnone
  | vlist (xs : List PyVal)
  | vunparsed (s : String)
deriving Repr, BEq

mutual

/-- `ast.literal_eval`, restricted to the constant shapes of the subset. -/
def literalEval : PyExpr → Option PyVal
  | .constInt n => some (.vint n)
  | .constStr s => some (.vstr s)
  | .constBool b => some (.vbool b)
  | .constNone => some .vnone
  | .listLit xs => (literalEvalList xs).map .vlist
  | _ => none

/-- `ast.literal_eval` over the elements of a list literal. -/
def literalEvalList : List PyExpr → Option (List PyVal)
  | [] => some []
  | e :: es =>
      match literalEval e, literalEvalList es with
      | some v, some vs => some (v :: vs)
      | _, _ => none

end

/-- `_get_decorator_kwargs`. -/
def getDecoratorKwargs : PyExpr → List (String × PyVal)
  | .call _ _ kws =>
      kws.filterMap fun kv =>
        kv.1.map fun a => (a, (literalEval kv.2).getD (.vunparsed (unparseExpr kv.2)))
  | _ => []

/-- Lookup in a Python-dict-like association list where a later binding for
the same key overrides an earlier one (`dict.update`). -/
def dictGet (l : List (String × PyVal)) (k : String) : Option PyVal :=
  (l.reverse.find? (fun p => p.1 = k)).map (·.2)

/-- Python truthiness of the literal values above. -/
def pyTruthy : PyVal → Bool
  | .vstr s => !s.isEmpty
  | .vint n => n ≠ 0
  | .vbool b => b
  | .vnone => false
  | .vlist xs => !xs.isEmpty
  | .vunparsed s => !s.isEmpty

mutual

/-- `repr`-style rendering used inside a rendered list. -/
def pyStrQ : PyVal → String
  | .vstr s => "'" ++ s ++ "'"
  | .vint n => toString n
  | .vbool b => if b then "True" else "False"
  | .vnone => "None"
  | .vlist xs => "[" ++ joinComma (pyStrQList xs) ++ "]"
  | .vunparsed s => s

def pyStrQList : List PyVal → List String
  | [] => []
  | v :: vs => pyStrQ v :: pyStrQList vs

end

/-- Python `str(...)` of the literal values above. -/
def pyStr : PyVal → String
  | .vstr s => s
  | .vint n => toString n
  | .vbool b => if b then "True" else "False"
  | .vnone => "None"
  | .vlist xs => "[" ++ joinComma (pyStrQList xs) ++ "]"
  | .vunparsed s => s

/-! ### Storage-type detection (`_detect_storage_call`) -/

def tblGet (tbl : List (String × String)) (k : String) : Option String :=
  (tbl.find? (fun p => p.1 = k)).map (·.2)

def storageConstructorsTbl : List (String × String) :=
  [("GlobalState", "GlobalState"), ("LocalState", "LocalState"),
   ("Box", "Box"), ("BoxMap", "BoxMap"), ("BoxRef", "BoxRef")]

def directTypeMapTbl : List (String × String) :=
  [("UInt64", "UInt64"), ("Bytes", "Bytes"), ("Account", "Account"),
   ("Bool", "Bool"), ("String", "String"),
   ("arc4.UInt64", "arc4.UInt64"), ("arc4.Bool", "arc4.Bool"),
   ("arc4.String", "arc4.String"), ("arc4.Address", "arc4.Address"),
   ("arc4.Byte", "arc4.Byte")]

/-- `func_name.rsplit(".", 1)[-1]`: the part after the last dot. -/
def lastDotComponent (s : String) : String :=
  String.mk (go s.data [])
where
  go : List Char → List Char → List Char
    | [], acc => acc.reverse
    | '.' :: rest, _ => go rest []
    | c :: rest, acc => go rest (c :: acc)

/-- `_detect_storage_call`: `(storage_type, data_type, default_value)` for a
storage-constructor or direct-type-constructor call, `none` otherwise. -/
def detectStorageCall : PyExpr → Option (String × String × Option String)
  | .call f args kws =>
      let funcName := unparseExpr f
      let short := lastDotComponent funcName
      match tblGet storageConstructorsTbl short with
      | some storageType =>
          let dataType := match args with
            | [] => "Unknown"
            | a :: _ => unparseExpr a
          let defaultValue := kws.foldl
            (fun acc kv =>
              if kv.1 = some "default" then some (unparseExpr kv.2) else acc)
            none
          some (storageType, dataType, defaultValue)
      | none =>
          match tblGet directTypeMapTbl funcName, tblGet directTypeMapTbl short with
          | some dt, _ =>
              some ("GlobalState", dt,
                if args.isEmpty then none else some (unparseExpr (.call f args kws)))
          | none, some dt =>
              some ("GlobalState", dt,
                if args.isEmpty then none else some (unparseExpr (.call f args kws)))
          | none, none => none
  | _ => none

/-! ### Inner-transaction detection (`_find_inner_txns`)

`_INNER_TXN_PATTERNS` is an alternation of word-bounded literals.  No
literal is a prefix of another, and (because a match must start and end at
word boundaries and every literal consists of word characters around a
single dot) no later match can start strictly inside an earlier one, so
scanning every position left to right is equivalent to `re.finditer`. -/

def innerTxnLiterals : List (String × String) :=
  [("itxn.Payment", "Payment"), ("itxn.AssetTransfer", "AssetTransfer"),
   ("itxn.ApplicationCall", "ApplicationCall"), ("itxn.AssetConfig", "AssetConfig"),
   ("itxn.KeyRegistration", "KeyRegistration"), ("itxn.AssetFreeze", "AssetFreeze"),
   ("InnerTransaction", "InnerTransaction"), ("itxn.submit", "InnerTransaction")]

def stripPrefixB : List Char → List Char → Option (List Char)
  | [], rest => some rest
  | _ :: _, [] => none
  | a :: as, b :: bs => if a = b then stripPrefixB as bs else none

/-- Does `lit` occur at the head of `l`, followed by a word boundary? -/
def boundedLitAt (lit : List Char) (l : List Char) : Bool :=
  match stripPrefixB lit l with
  | some [] => true
  | some (d :: _) => !isWordChar d
  | none => false

def atBoundary : Option Char → Bool
  | none => true
  | some p => !isWordChar p

def findInnerTxnsGo : Option Char → List Char → List String → List String
  | _, [], found => found
  | prev, c :: rest, found =>
      let found' :=
        if atBoundary prev then
          match innerTxnLiterals.find? (fun lit => boundedLitAt lit.1.data (c :: rest)) with
          | some lit => if found.contains lit.2 then found else found ++ [lit.2]
          | none => found
        else found
      findInnerTxnsGo (some c) rest found'

/-- `_find_inner_txns`. -/
def findInnerTxns (body : List PyStmt) : List String :=
  findInnerTxnsGo none (bodySource body).data []

/-! ### Event / guard / self-call scanners -/

/-- `_find_events`. -/
def findEvents (body : List PyStmt) : List String :=
  (walkBody body).foldl
    (fun events n =>
      match n with
      | .expr (.call f args _) =>
          if strIn "emit" (unparseExpr f) then
            match args with
            | [] => events
            | arg :: _ =>
                let nm := match arg with
                  | .call af _ _ => unparseExpr af
                  | _ => unparseExpr arg
                if events.contains nm then events else events ++ [nm]
          else events
      | _ => events)
    []

/-- `_count_guards`. -/
def countGuards (body : List PyStmt) : Nat :=
  (walkBody body).foldl
    (fun n node =>
      match node with
      | .stmt (.assertStmt _ _) => n + 1
      | .expr (.call f _ _) =>
          if strIn "op.err" (unparseExpr f) || strIn "op.exit" (unparseExpr f) then
            n + 1
          else n
      | _ => n)
    0

/-- `_find_self_calls`. -/
def findSelfCalls (body : List PyStmt) : List String :=
  (walkBody body).foldl
    (fun calls node =>
      match node with
      | .expr (.call (.attribute (.name "self") mname) _ _) =>
          if calls.contains mname then calls else calls ++ [mname]
      | _ => calls)
    []

/-! ### Storage-access detection (`_find_storage_access`) -/

def clsOf (s : String) : RE := .cls true s.data

def ropt (r : RE) : RE := .alt r .eps

def rplus (r : RE) : RE := .seq r (.star r)

def opChars : String := "+-*/|&^"

def writePatterns (v : String) : List RE :=
  let sv := rlit ("self." ++ v)
  [rcat [sv, rlit ".value", rwsStar, ropt (clsOf opChars), rlit "="],
   rcat [sv, rwsStar, ropt (clsOf opChars), rlit "="],
   rcat [sv, rlit ".set("],
   rcat [sv, rlit "[", .star rdot, rlit "]", rwsStar, ropt (clsOf opChars), rlit "="],
   rcat [sv, rlit ".value[", .star rdot, rlit "]", rwsStar, ropt (clsOf opChars), rlit "="]]

def readPatterns (v : String) : List RE :=
  let sv := rlit ("self." ++ v)
  [rcat [sv, rlit ".value"],
   rcat [sv, rlit ".get("],
   rcat [sv, rlit "["]]

def directReadPatterns (v : String) : List RE :=
  let sv := rlit ("self." ++ v)
  [rcat [sv, rwsStar, clsOf "+-*/><!=&|^%"],
   rcat [sv, rwsStar, rlit ")"],
   rcat [rlit "(", sv],
   rcat [rlit "return", .star rdot, sv],
   rcat [rlit "assert", .star rdot, sv],
   rcat [sv, rwsStar, rlit ","],
   rcat [rlit ",", rwsStar, sv],
   rcat [rlit "arc4.", rplus rword, rlit "(", sv]]

def augmentedPatterns (v : String) : List RE :=
  let sv := rlit ("self." ++ v)
  [rcat [sv, rwsStar, clsOf opChars, rlit "="],
   rcat [sv, rlit ".value", rwsStar, clsOf opChars, rlit "="]]

/-- The loop body of `_find_storage_access` for one variable name. -/
def storageAccessStep (source : String) (acc : List String × List String)
    (v : String) : List String × List String :=
  let isWrite := (writePatterns v).any (fun p => research p source)
  let isRead := (readPatterns v).any (fun p => research p source)
  let isDirectRead := (directReadPatterns v).any (fun p => research p source)
  let isAugmented := (augmentedPatterns v).any (fun p => research p source)
  if isAugmented then
    (if acc.1.contains v then acc.1 else acc.1 ++ [v],
     if acc.2.contains v then acc.2 else acc.2 ++ [v])
  else
    ((if isRead || isDirectRead then acc.1 ++ [v] else acc.1),
     (if isWrite then acc.2 ++ [v] else acc.2))

/-- `_find_storage_access`: which of `varNames` (the state-variable name
set, in iteration order) are read / written by the member body.  Returns
`(reads, writes)`. -/
def findStorageAccess (body : List PyStmt) (varNames : List String) :
    List String × List String :=
  varNames.foldl (storageAccessStep (bodySource body)) ([], [])

/-- The per-variable read condition of `_find_storage_access` (augmented
assignment, or a read/direct-read pattern). -/
def readsPredOf (source v : String) : Bool :=
  (augmentedPatterns v).any (fun p => research p source) ||
    ((readPatterns v).any (fun p => research p source) ||
      (directReadPatterns v).any (fun p => research p source))

/-- The per-variable write condition of `_find_storage_access`. -/
def writesPredOf (source v : String) : Bool :=
  (augmentedPatterns v).any (fun p => research p source) ||
    (writePatterns v).any (fun p => research p source)

/-! ### Result data structures -/

structure StateVariable where
  name : String
  storage_type : String
  data_type : String
  default_value : Option String
deriving DecidableEq, Repr

structure MethodInfo where
  name : String
  params : List (String × String)
  return_type : String
  reads_state : List String
  writes_state : List String
  calls_methods : List String
  inner_txns : List String
  emits_events : List String
  guards_count : Nat
  line_number : Nat
  decorator : String
  is_readonly : Bool
  is_create : Bool
  allowed_actions : List String
  abi_signature : Option String
  description : Option String
deriving DecidableEq, Repr

structure CallGraphEdge where
  «from» : String
  «to» : String
deriving DecidableEq, Repr

structure StorageAccessEdge where
  method : String
  «variable» : String
  access_type : String
deriving DecidableEq, Repr

structure InnerTxnEdge where
  method : String
  txn_type : String
deriving DecidableEq, Repr

structure EventRecord where
  name : String
  emitted_by : List String
deriving DecidableEq, Repr

structure SecurityNote where
  type : String
  message : String
  method : Option String
deriving DecidableEq, Repr

structure SolidityMapping where
  solidity_element : String
  algorand_element : String
  mapping_type : String
deriving DecidableEq, Repr

structure ContractAnalysis where
  contract_name : String
  state_variables : List StateVariable
  methods : List MethodInfo
  subroutines : List MethodInfo
  call_graph : List CallGraphEdge
  storage_access_map : List StorageAccessEdge
  inner_txn_map : List InnerTxnEdge
  events : List EventRecord
  security_notes : List SecurityNote
  solidity_mapping : List SolidityMapping
  errors : List String
deriving DecidableEq, Repr

/-! ### Security notes (`_generate_security_notes`)

The Python function receives the subroutine list but never reads it; the
parameter is kept to mirror the signature. -/

def generateSecurityNotes (methods : List MethodInfo)
    (_subroutines : List MethodInfo) : List SecurityNote :=
  let warnings := methods.filterMap fun m =>
    if m.guards_count = 0 && !m.is_readonly then
      some { type := "warning",
             message := "Method '" ++ m.name ++
               "' has no assertion guards — consider adding sender/state checks.",
             method := some m.name }
    else none
  let dangers := methods.filterMap fun m =>
    if !m.inner_txns.isEmpty && m.guards_count = 0 then
      some { type := "danger",
             message := "Method '" ++ m.name ++
               "' makes inner transactions without any assertion guards!",
             method := some m.name }
    else none
  let guarded := methods.filter fun m => decide (m.guards_count > 0) && !m.is_readonly
  let nonReadonly := methods.filter fun m => !m.is_readonly
  let safes :=
    if !nonReadonly.isEmpty && guarded.length = nonReadonly.length then
      [{ type := "safe",
         message := "All state-changing methods have assertion guards.",
         method := none }]
    else []
  let infos :=
    if methods.any (·.is_create) then []
    else
      [{ type := "info",
         message := "No explicit create method found — contract may use a bare 'create' method.",
         method := none }]
  warnings ++ dangers ++ safes ++ infos

/-! ### Solidity-to-Algorand mapping (`_build_solidity_mapping`)

The Python function drives a handful of `re.finditer` / `re.search` calls;
each pattern is hand-compiled into an explicit scanner.  `finditerDrive`
mirrors `re.finditer`: scan left to right, and resume after the end of each
match (every matcher below consumes at least one character on success). -/

def finditerDrive {α : Type} (matchAt : Option Char → List Char → Option (Nat × α)) :
    Nat → Option Char → List Char → List α → List α
  | 0, _, _, acc => acc.reverse
  | _ + 1, _, [], acc => acc.reverse
  | fuel + 1, prev, c :: rest, acc =>
      match matchAt prev (c :: rest) with
      | some (len, payload) =>
          if len = 0 then finditerDrive matchAt fuel (some c) rest (payload :: acc)
          else
            finditerDrive matchAt fuel ((c :: rest).take len).getLast?
              ((c :: rest).drop len) (payload :: acc)
      | none => finditerDrive matchAt fuel (some c) rest acc

def finditerAll {α : Type} (matchAt : Option Char → List Char → Option (Nat × α))
    (s : String) : List α :=
  finditerDrive matchAt (s.length + 1) none s.data []

/-- `mapping\s*\(([^)]+)\)` — returns `group(0)`. -/
def matchMappingSig (_prev : Option Char) (l : List Char) : Option (Nat × String) :=
  match stripPrefixB "mapping".data l with
  | none => none
  | some rest =>
      let ws := rest.takeWhile isSpaceChar
      match rest.drop ws.length with
      | '(' :: rest2 =>
          let inner := rest2.takeWhile (fun c => c ≠ ')')
          if inner.isEmpty then none
          else
            match rest2.drop inner.length with
            | ')' :: _ =>
                let len := 7 + ws.length + 1 + inner.length + 1
                some (len, String.mk (l.take len))
            | _ => none
      | _ => none

/-- One alternative of `(uint\d*|int\d*|bool|string|address|bytes\d*)`. -/
def matchSolTypeAlt (kw : String) (digits : Bool) (l : List Char) :
    Option (Nat × String) :=
  match stripPrefixB kw.data l with
  | none => none
  | some rest =>
      if digits then
        let ds := rest.takeWhile isDigitChar
        some (kw.length + ds.length, kw ++ String.mk ds)
      else some (kw.length, kw)

/-- The type alternation; at most one alternative can match at a given
position (their first two characters differ pairwise), so trying them in
pattern order needs no backtracking across alternatives. -/
def matchSolType (l : List Char) : Option (Nat × String) :=
  (matchSolTypeAlt "uint" true l).orElse fun _ =>
  (matchSolTypeAlt "int" true l).orElse fun _ =>
  (matchSolTypeAlt "bool" false l).orElse fun _ =>
  (matchSolTypeAlt "string" false l).orElse fun _ =>
  (matchSolTypeAlt "address" false l).orElse fun _ =>
  matchSolTypeAlt "bytes" true l

/-- `(\w+)\s*[;=]` — returns (consumed length, captured name). -/
def matchNameTail (l : List Char) : Option (Nat × String) :=
  let w := l.takeWhile isWordChar
  if w.isEmpty then none
  else
    let rest := l.drop w.length
    let ws := rest.takeWhile isSpaceChar
    match rest.drop ws.length with
    | c :: _ =>
        if c = ';' || c = '=' then some (w.length + ws.length + 1, String.mk w)
        else none
    | [] => none

/-- One qualifier alternative `public\s+` / `private\s+` / `internal\s+`
followed by the name tail. -/
def matchQualAlt (q : String) (l : List Char) : Option (Nat × String) :=
  match stripPrefixB q.data l with
  | none => none
  | some rest =>
      let ws := rest.takeWhile isSpaceChar
      if ws.isEmpty then none
      else
        (matchNameTail (rest.drop ws.length)).map fun p =>
          (q.length + ws.length + p.1, p.2)

/-- `(?:public\s+|private\s+|internal\s+)?(\w+)\s*[;=]` with the regex
back-off to the empty qualifier when the qualified attempt fails. -/
def matchQualName (l : List Char) : Option (Nat × String) :=
  (matchQualAlt "public" l).orElse fun _ =>
  (matchQualAlt "private" l).orElse fun _ =>
  (matchQualAlt "internal" l).orElse fun _ =>
  matchNameTail l

/-- The whole state-variable declaration pattern
`\b(uint\d*|int\d*|bool|string|address|bytes\d*)\s+(?:public\s+|private\s+|internal\s+)?(\w+)\s*[;=]`. -/
def matchSolDecl (prev : Option Char) (l : List Char) :
    Option (Nat × (String × String)) :=
  if atBoundary prev then
    match matchSolType l with
    | none => none
    | some (tlen, ty) =>
        let rest := l.drop tlen
        let ws := rest.takeWhile isSpaceChar
        if ws.isEmpty then none
        else
          (matchQualName (rest.drop ws.length)).map fun p =>
            (tlen + ws.length + p.1, (ty, p.2))
  else none

/-- `\bKEYWORD\s+(\w+)` — returns the captured name. -/
def matchKwName (kw : String) (prev : Option Char) (l : List Char) :
    Option (Nat × String) :=
  if atBoundary prev then
    match stripPrefixB kw.data l with
    | none => none
    | some rest =>
        let ws := rest.takeWhile isSpaceChar
        if ws.isEmpty then none
        else
          let w := (rest.drop ws.length).takeWhile isWordChar
          if w.isEmpty then none
          else some (kw.length + ws.length + w.length, String.mk w)
  else none

/-- `re.search(r"\b(w1|w2|...)\b", s)` for literal word alternatives. -/
def existsBoundedLitGo (lits : List String) : Option Char → List Char → Bool
  | _, [] => false
  | prev, c :: rest =>
      (atBoundary prev && lits.any (fun w => boundedLitAt w.data (c :: rest))) ||
        existsBoundedLitGo lits (some c) rest

def searchWordAny (lits : List String) (s : String) : Bool :=
  existsBoundedLitGo lits none s.data

/-- `\b(internal|private)\s+function\b` at one position. -/
def matchIntPrivFnAlt (q : String) (l : List Char) : Bool :=
  match stripPrefixB q.data l with
  | none => false
  | some rest =>
      let ws := rest.takeWhile isSpaceChar
      if ws.isEmpty then false
      else boundedLitAt "function".data (rest.drop ws.length)

def existsIntPrivFnGo : Option Char → List Char → Bool
  | _, [] => false
  | prev, c :: rest =>
      (atBoundary prev &&
        (matchIntPrivFnAlt "internal" (c :: rest) || matchIntPrivFnAlt "private" (c :: rest))) ||
        existsIntPrivFnGo (some c) rest

def searchIntPrivFn (s : String) : Bool :=
  existsIntPrivFnGo none s.data

/-- The `"uint" in sol_type or "int" in sol_type ...` nested conditional. -/
def solTypeToAlgo (t : String) : String :=
  if strIn "uint" t || strIn "int" t then "UInt64"
  else if strIn "bytes" t then "Bytes"
  else if t = "bool" then "arc4.Bool"
  else if t = "string" then "arc4.String"
  else if t = "address" then "Account"
  else t

/-- `_build_solidity_mapping`. -/
def buildSolidityMapping (solidityCode algopyCode : String) : List SolidityMapping :=
  let mappingEntries := (finditerAll matchMappingSig solidityCode).map fun sig =>
    if strIn "BoxMap" algopyCode then
      { solidity_element := sig, algorand_element := "BoxMap(...)",
        mapping_type := "storage" }
    else
      { solidity_element := sig, algorand_element := "GlobalState(...)",
        mapping_type := "storage" }
  let declEntries := (finditerAll matchSolDecl solidityCode).map fun tn =>
    { solidity_element := tn.1 ++ " " ++ tn.2,
      algorand_element := "GlobalState(" ++ solTypeToAlgo tn.1 ++ ")",
      mapping_type := "storage" }
  let senderEntries :=
    if strIn "msg.sender" solidityCode then
      [{ solidity_element := "msg.sender", algorand_element := "Txn.sender",
         mapping_type := "context" }]
    else []
  let requireEntries :=
    if strIn "require(" solidityCode then
      [{ solidity_element := "require(...)", algorand_element := "assert ...",
         mapping_type := "control_flow" }]
    else []
  let eventEntries := (finditerAll (matchKwName "event") solidityCode).map fun nm =>
    { solidity_element := "event " ++ nm,
      algorand_element := "arc4.emit(" ++ nm ++ "(...))",
      mapping_type := "event" }
  let modifierEntries := (finditerAll (matchKwName "modifier") solidityCode).map fun nm =>
    { solidity_element := "modifier " ++ nm,
      algorand_element := "@subroutine " ++ nm ++ "()",
      mapping_type := "access_control" }
  let payableEntries :=
    if strIn "payable" solidityCode then
      [{ solidity_element := "payable", algorand_element := "itxn.Payment / PaymentTxn",
         mapping_type := "payment" }]
    else []
  let ctorEntries :=
    if strIn "constructor" solidityCode then
      [{ solidity_element := "constructor(...)",
         algorand_element := "@arc4.baremethod(create='require')",
         mapping_type := "lifecycle" }]
    else []
  let visEntries :=
    if searchWordAny ["public", "external"] solidityCode then
      [{ solidity_element := "public / external function",
         algorand_element := "@arc4.abimethod", mapping_type := "visibility" }]
    else []
  let intEntries :=
    if searchIntPrivFn solidityCode then
      [{ solidity_element := "internal / private function",
         algorand_element := "@subroutine", mapping_type := "visibility" }]
    else []
  let tsEntries :=
    if strIn "block.timestamp" solidityCode then
      [{ solidity_element := "block.timestamp",
         algorand_element := "Global.latest_timestamp", mapping_type := "context" }]
    else []
  let valEntries :=
    if strIn "msg.value" solidityCode then
      [{ solidity_element := "msg.value",
         algorand_element := "PaymentTxn.amount (grouped txn)",
         mapping_type := "context" }]
    else []
  mappingEntries ++ declEntries ++ senderEntries ++ requireEntries ++
    eventEntries ++ modifierEntries ++ payableEntries ++ ctorEntries ++
    visEntries ++ intEntries ++ tsEntries ++ valEntries

/-! ### ARC-32 app-spec model

`arc32_json` is an untyped dict in Python; here only the fields the
analyzer reads are kept.  `returns` is the `returns.type` string (absent
section or absent type both fall back to `"void"`, so they are collapsed to
`none`); `some j` models a supplied, non-empty (truthy) dict. -/

structure Arc32Arg where
  argType : Option String
deriving DecidableEq, Repr

structure Arc32Method where
  name : String
  args : List Arc32Arg
  returns : Option String
  desc : Option String
deriving DecidableEq, Repr

structure Arc32Json where
  methods : List Arc32Method
  contract : Option (List Arc32Method)
deriving DecidableEq, Repr

/-- The ABI selector signature `f"{name}({arg_types}){ret_type}"`. -/
def sigOfArc32 (nm : String) (info : Arc32Method) : String :=
  nm ++ "(" ++ String.intercalate "," (info.args.map (fun a => a.argType.getD "?")) ++
    ")" ++ info.returns.getD "void"

/-- `arc32_methods_list`: the top-level `methods` entry, or the
`contract.methods` entry when the former is empty/absent. -/
def arc32EffectiveMethods (j : Arc32Json) : List Arc32Method :=
  if j.methods.isEmpty then j.contract.getD [] else j.methods

/-- `arc32_by_name[name]`: the dict is filled in list order, so a later
descriptor for the same name overrides an earlier one. -/
def arc32LookupByName (j : Arc32Json) (nm : String) : Option Arc32Method :=
  (arc32EffectiveMethods j).reverse.find? (fun am => am.name = nm)

/-- The per-method ARC-32 cross-reference: attach `abi_signature` (and
`description` when `desc` is truthy) when the method name has a
descriptor. -/
def applyArc32One (j : Arc32Json) (m : MethodInfo) : MethodInfo :=
  match arc32LookupByName j m.name with
  | none => m
  | some info =>
      let m1 := { m with abi_signature := some (sigOfArc32 m.name info) }
      match info.desc with
      | some d => if d ≠ "" then { m1 with description := some d } else m1
      | none => m1

/-- The ARC-32 cross-reference pass of `analyze_contract`. -/
def applyArc32 (arc32 : Option Arc32Json) (methods : List MethodInfo) :
    List MethodInfo :=
  match arc32 with
  | none => methods
  | some j => methods.map (applyArc32One j)

/-- Every field of a method entry except the two the ARC-32 merge may
attach (`abi_signature`, `description`). -/
def methodCore (m : MethodInfo) :=
  (m.name, m.params, m.return_type, m.reads_state, m.writes_state,
   m.calls_methods, m.inner_txns, m.emits_events, m.guards_count,
   m.line_number, m.decorator, m.is_readonly, m.is_create, m.allowed_actions)

/-! ### State-variable extraction -/

/-- The entry contributed by one assignment target of an `__init__`
statement: a classified state variable when the target is a
`self.<attr>` attribute. -/
def stateVarOfTarget (value : PyExpr) (t : PyExpr) : Option StateVariable :=
  match t with
  | .attribute (.name id) attr =>
      if id = "self" then
        match detectStorageCall value with
        | some (st, dt, dv) =>
            some { name := attr, storage_type := st, data_type := dt,
                   default_value := dv }
        | none =>
            some { name := attr, storage_type := "Unknown",
                   data_type := unparseExpr value, default_value := none }
      else none
  | _ => none

/-- Entries contributed by one `__init__` statement: one per
`self.<attr> = ...` assignment target. -/
def stateVarsOfInitStmt : PyStmt → List StateVariable
  | .assign targets value => targets.filterMap (stateVarOfTarget value)
  | _ => []

/-- Entries contributed by one statement of the contract-class body: the
`__init__` walk plus the class-level annotated-assignment check.  The
annotation is matched against the storage-constructor names in dict order,
stopping at the first hit (`"Box"` therefore also catches `BoxMap`/`BoxRef`
annotations, as in the source). -/
def stateVarsOfClassStmt : PyStmt → List StateVariable
  | .funcDef nm _ ibody _ _ _ =>
      if nm = "__init__" then ibody.flatMap stateVarsOfInitStmt else []
  | .annAssign (.name varName) ann value =>
      let annStr := unparseExpr ann
      match storageConstructorsTbl.find? (fun kv => strIn kv.1 annStr) with
      | some kv =>
          [{ name := varName, storage_type := kv.2, data_type := annStr,
             default_value := value.map unparseExpr }]
      | none => []
  | _ => []

/-! ### Spec-side description of state-variable discovery

Following the spec's words for §4.3 ("walks the initializer member's
statements in source order; for each simple assignment to a
contract-owned attribute … also scans class-level annotated declarations
whose annotation mentions a storage-constructor name"), used to compare
against the extractor: the discovered *names*, one per qualifying
assignment, in source order. -/

def selfAttrName : PyExpr → Option String
  | .attribute (.name id) attr => if id = "self" then some attr else none
  | _ => none

def collectInitNames : PyStmt → List String
  | .assign targets _ => targets.filterMap selfAttrName
  | _ => []

def collectClassStmtNames : PyStmt → List String
  | .funcDef nm _ ibody _ _ _ =>
      if nm = "__init__" then ibody.flatMap collectInitNames else []
  | .annAssign (.name v) ann _ =>
      if storageConstructorsTbl.any (fun kv => strIn kv.1 (unparseExpr ann)) then [v]
      else []
  | _ => []

def collectedStateVarNames (clsBody : List PyStmt) : List String :=
  clsBody.flatMap collectClassStmtNames

/-! ### Member extraction -/

/-- Process one callable member of the contract class (the loop body of the
"Extract methods & subroutines" section).  Returns the entry and whether it
is an ABI/bare method (`true`) or a subroutine/helper (`false`).
`varNamesIter` is the state-variable name set in iteration order,
`stateVarNames` the same names for membership tests. -/
def processMember (varNamesIter stateVarNames : List String) (nm : String)
    (args : List (String × Option PyExpr)) (body : List PyStmt)
    (decorators : List PyExpr) (returns : Option PyExpr) (lineno : Nat) :
    MethodInfo × Bool :=
  let decNames := decorators.map getDecoratorName
  let decKwargs := (decorators.map getDecoratorKwargs).flatten
  let isAbimethod := decNames.any (fun d => strIn "abimethod" d)
  let isBaremethod := decNames.any (fun d => strIn "baremethod" d)
  let isSubroutineDec := decNames.any (fun d => strIn "subroutine" d)
  let params := args.filterMap fun a =>
    if a.1 = "self" then none else some (a.1, unparseOptExpr a.2)
  let returnType := unparseOptExpr returns
  let rw := findStorageAccess body varNamesIter
  let calls := findSelfCalls body
  let methodCalls := calls.filter fun c => !stateVarNames.contains c && c ≠ "__init__"
  let base : MethodInfo :=
    { name := nm, params := params, return_type := returnType,
      reads_state := rw.1, writes_state := rw.2, calls_methods := methodCalls,
      inner_txns := findInnerTxns body, emits_events := findEvents body,
      guards_count := countGuards body, line_number := lineno,
      decorator := "", is_readonly := false, is_create := false,
      allowed_actions := [], abi_signature := none, description := none }
  if isAbimethod || isBaremethod then
    let decorator := if isAbimethod then "abimethod" else "baremethod"
    let isReadonlyVal := (dictGet decKwargs "readonly").getD
      ((dictGet decKwargs "read_only").getD (.vbool false))
    let createVal := dictGet decKwargs "create"
    let isCreate := createVal == some (.vstr "require") || createVal == some (.vbool true)
    let allowActs := (dictGet decKwargs "allow_actions").getD (.vlist [])
    let allowedActions := match allowActs with
      | .vlist xs => xs.map pyStr
      | .vstr s => [s]
      | _ => []
    ({ base with
        decorator := decorator, is_readonly := pyTruthy isReadonlyVal,
        is_create := isCreate, allowed_actions := allowedActions }, true)
  else if isSubroutineDec then
    ({ base with decorator := "subroutine" }, false)
  else
    ({ base with decorator := "helper" }, false)

/-- Insertion-ordered dict accumulation for the events table. -/
def aggAdd (agg : List (String × List String)) (k v : String) :
    List (String × List String) :=
  if agg.any (fun p => p.1 = k) then
    agg.map fun p => if p.1 = k then (p.1, p.2 ++ [v]) else p
  else agg ++ [(k, [v])]

/-! ### The aggregation stages of `analyze_contract` -/

/-- The state-variable extraction loop over the contract-class body. -/
def stateVariablesOf (clsBody : List PyStmt) : List StateVariable :=
  clsBody.flatMap stateVarsOfClassStmt

/-- The "Extract methods & subroutines" loop: one `(entry, isMethod)` pair
per callable member other than `__init__`. -/
def memberEntriesOf (varNamesIter stateVarNames : List String)
    (clsBody : List PyStmt) : List (MethodInfo × Bool) :=
  clsBody.filterMap fun node =>
    match node with
    | .funcDef nm args body decs ret ln =>
        if nm = "__init__" then none
        else some (processMember varNamesIter stateVarNames nm args body decs ret ln)
    | _ => none

/-- The "Build call graph" section (edges filtered to known members). -/
def callGraphOf (allFuncNames : List String) (members : List MethodInfo) :
    List CallGraphEdge :=
  members.flatMap fun m =>
    m.calls_methods.filterMap fun callee =>
      if allFuncNames.contains callee then
        some { «from» := m.name, «to» := callee }
      else none

/-- The "Build storage access map" section. -/
def storageMapOf (members : List MethodInfo) : List StorageAccessEdge :=
  members.flatMap fun m =>
    m.reads_state.map
      (fun v => { method := m.name, «variable» := v, access_type := "read" }) ++
    m.writes_state.map
      (fun v => { method := m.name, «variable» := v, access_type := "write" })

/-- The "Build inner txn map" section. -/
def innerTxnMapOf (members : List MethodInfo) : List InnerTxnEdge :=
  members.flatMap fun m =>
    m.inner_txns.map fun t => { method := m.name, txn_type := t }

/-- The "Build events list" section (insertion-ordered dict). -/
def eventsListOf (members : List MethodInfo) : List EventRecord :=
  (members.foldl
      (fun agg m => m.emits_events.foldl (fun agg ev => aggAdd agg ev m.name) agg)
      []).map
    fun p => { name := p.1, emitted_by := p.2 }

/-- The `if solidity_code:` guard around `_build_solidity_mapping`. -/
def solidityMappingOf (solidityCode : Option String) (algopyCode : String) :
    List SolidityMapping :=
  match solidityCode with
  | some sc => if sc.isEmpty then [] else buildSolidityMapping sc algopyCode
  | none => []

/-! ### Public API: `analyze_contract` -/

/-- The degraded all-empty result used by the failure branches. -/
def degradedResult (errs : List String) : ContractAnalysis :=
  { contract_name := "Unknown", state_variables := [], methods := [],
    subroutines := [], call_graph := [], storage_access_map := [],
    inner_txn_map := [], events := [], security_notes := [],
    solidity_mapping := [], errors := errs }

/-- The successful analysis path, once the primary contract class has been
located: everything from "Extract state variables" to the composed
result.  The call graph and the four maps are built from the pre-merge
method entries (as in the source, where the ARC-32 merge mutates the
dicts afterwards but touches none of the fields those maps read), and the
security notes from the post-merge ones. -/
def analyzeClassBody (σ : List String → List String) (algopyCode : String)
    (arc32Json : Option Arc32Json) (solidityCode : Option String)
    (contractName : String) (clsBody : List PyStmt) : ContractAnalysis :=
  let state_variables := stateVariablesOf clsBody
  let stateVarNames := state_variables.map (·.name)
  let varNamesIter := σ (dedupFirst stateVarNames)
  let memberEntries := memberEntriesOf varNamesIter stateVarNames clsBody
  let methods0 := (memberEntries.filter (·.2)).map (·.1)
  let subroutines := (memberEntries.filter (fun e => !e.2)).map (·.1)
  let allMembers := methods0 ++ subroutines
  let allFuncNames := methods0.map (·.name) ++ subroutines.map (·.name)
  { contract_name := contractName, state_variables := state_variables,
    methods := applyArc32 arc32Json methods0, subroutines := subroutines,
    call_graph := callGraphOf allFuncNames allMembers,
    storage_access_map := storageMapOf allMembers,
    inner_txn_map := innerTxnMapOf allMembers,
    events := eventsListOf allMembers,
    security_notes := generateSecurityNotes (applyArc32 arc32Json methods0) subroutines,
    solidity_mapping := solidityMappingOf solidityCode algopyCode,
    errors := [] }

/-- `analyze_contract(algopy_code, arc32_json, solidity_code)`.

`parsed` is the outcome of `ast.parse(algopy_code)` (the parser is stdlib
code, modelled as an oracle; `.error msg` carries `str(exc)`).  `σ` models
the CPython iteration order of the `state_var_names` set: it reorders the
insertion-ordered list of discovered names, and within one process any two
invocations see the same order. -/
def analyzeContract (σ : List String → List String) (algopyCode : String)
    (parsed : Except String PyModule) (arc32Json : Option Arc32Json)
    (solidityCode : Option String) : ContractAnalysis :=
  match parsed with
  | .error msg => degradedResult ["Syntax error: " ++ msg]
  | .ok tree =>
      let allNodes := walkNode (.mod tree)
      let matched := allNodes.filterMap fun n =>
        match n with
        | .stmt (.classDef nm bases body ln) =>
            if bases.any (fun b =>
                let bs := unparseExpr b
                strIn "ARC4Contract" bs || strIn "Contract" bs || strIn "ARC4Client" bs)
            then some (nm, body, ln) else none
        | _ => none
      let fallback := allNodes.filterMap fun n =>
        match n with
        | .stmt (.classDef nm _ body ln) => some (nm, body, ln)
        | _ => none
      let contractClasses := if matched.isEmpty then fallback.take 1 else matched
      match contractClasses with
      | [] => degradedResult ["No contract class found in the code."]
      | (contractName, clsBody, _) :: _ =>
          analyzeClassBody σ algopyCode arc32Json solidityCode contractName clsBody

/-! ### Multi-contract analysis (`analyze_multi_contract`) -/

/-- One element of the `contracts` argument.  `name = ""` models an absent
or falsy `name` key; `parsed` is the `ast.parse` oracle outcome for
`algopy_code`, as in `analyzeContract`. -/
structure MultiContractInput where
  name : String
  algopy_code : String
  parsed : Except String PyModule
  arc32_json : Option Arc32Json
  solidity_code : Option String

structure InterContractEdge where
  from_contract : String
  to_contract : String
  relationship_type : String
  via_method : Option String
deriving DecidableEq, Repr

structure MultiContractAnalysis where
  contracts : List ContractAnalysis
  inter_contract_edges : List InterContractEdge
  deployment_order : List String
deriving DecidableEq, Repr

def isLowerOrDigitChar (c : Char) : Bool :=
  ('a' ≤ c && c ≤ 'z') || ('0' ≤ c && c ≤ '9')

def isUpperChar (c : Char) : Bool :=
  'A' ≤ c && c ≤ 'Z'

/-- `re.sub(r"(?<=[a-z0-9])(?=[A-Z])", "_", name).lower()`. -/
def snakeCase (s : String) : String :=
  lowerStr (String.mk (go s.data))
where
  go : List Char → List Char
    | [] => []
    | [c] => [c]
    | a :: b :: rest =>
        if isLowerOrDigitChar a && isUpperChar b then a :: '_' :: go (b :: rest)
        else a :: go (b :: rest)

/-- The fuzzy-matching name variants of a contract name.  Python collects
them in a `set` and converts to a list, so the order is unspecified; they
are kept here in construction order with duplicates removed.  Only
membership and "does some variant occur in the code" are relied on below. -/
def nameVariantsOf (name : String) : List String :=
  let lower := lowerStr name
  let snake := snakeCase name
  dedupFirst [lower, snake, lower ++ "_app_id", snake ++ "_app_id",
              lower ++ "_app", snake ++ "_app", lower ++ "_id", snake ++ "_id"]

/-- Strategy 2, first pass: the first member with an `ApplicationCall`
inner transaction that reads or writes a state variable whose lowered name
contains `variant`. -/
def findAppCallViaState (members : List MethodInfo) (variant : String) :
    Option String :=
  (members.find? fun m =>
      m.inner_txns.contains "ApplicationCall" &&
        (m.reads_state ++ m.writes_state).any (fun sv => strIn variant (lowerStr sv))).map
    (·.name)

/-- Strategy 2, second pass: any member with an `ApplicationCall` inner
transaction. -/
def findAnyAppCall (members : List MethodInfo) : Option String :=
  (members.find? fun m => m.inner_txns.contains "ApplicationCall").map (·.name)

/-- Strategy 3: the first ABI method with an `ApplicationCall` inner
transaction one of whose parameter names contains a variant. -/
def findAppCallViaParam (methodsData : List MethodInfo) (variants : List String) :
    Option String :=
  (methodsData.find? fun m =>
      m.inner_txns.contains "ApplicationCall" &&
        m.params.any (fun p => variants.any (fun v => strIn v (lowerStr p.1)))).map
    (·.name)

/-- The three relationship-detection strategies for one ordered pair
`(from, other)`, tried in order, first match wins. -/
def detectEdge (fromName code codeLower : String)
    (methodsData subroutinesData : List MethodInfo)
    (otherName : String) (otherVariants : List String) :
    Option InterContractEdge :=
  if strIn otherName code then
    some { from_contract := fromName, to_contract := otherName,
           relationship_type :=
             if strIn "itxn.ApplicationCall" code then "ApplicationCall"
             else "references",
           via_method := none }
  else
    match otherVariants.find? (fun v => strIn v codeLower) with
    | some variant =>
        let allMembers := methodsData ++ subroutinesData
        match findAppCallViaState allMembers variant with
        | some nm =>
            some { from_contract := fromName, to_contract := otherName,
                   relationship_type := "ApplicationCall", via_method := some nm }
        | none =>
            match findAnyAppCall allMembers with
            | some nm =>
                some { from_contract := fromName, to_contract := otherName,
                       relationship_type := "ApplicationCall", via_method := some nm }
            | none =>
                some { from_contract := fromName, to_contract := otherName,
                       relationship_type := "references", via_method := none }
    | none =>
        (findAppCallViaParam methodsData otherVariants).map fun nm =>
          { from_contract := fromName, to_contract := otherName,
            relationship_type := "ApplicationCall", via_method := some nm }

/-- The dependency count of contract `n`: the number of edges whose source
is `n` (each edge increments its source's count, provided both endpoint
names are truthy and are keys of the count dict). -/
def dependencyCountOf (contractNames : List String)
    (edges : List InterContractEdge) (n : String) : Nat :=
  edges.foldl
    (fun acc e =>
      if !e.to_contract.isEmpty && contractNames.contains e.to_contract &&
          !e.from_contract.isEmpty && contractNames.contains e.from_contract &&
          e.from_contract = n
      then acc + 1 else acc)
    0

/-- The per-contract sub-analysis with the `name`-key override. -/
def analyzeOneInput (σ : List String → List String) (c : MultiContractInput) :
    ContractAnalysis :=
  let r := analyzeContract σ c.algopy_code c.parsed c.arc32_json c.solidity_code
  if c.name.isEmpty then r else { r with contract_name := c.name }

/-- The inner loop `for j, other_name in enumerate(contract_names)` of the
relationship detection, for the outer contract at index `i`. -/
def pairEdgesGo (i : Nat) (a : ContractAnalysis) (c : MultiContractInput) :
    Nat → List String → List InterContractEdge
  | _, [] => []
  | j, otherName :: rest =>
      (if i = j then []
       else
         (detectEdge a.contract_name c.algopy_code (lowerStr c.algopy_code)
             a.methods a.subroutines otherName (nameVariantsOf otherName)).toList) ++
        pairEdgesGo i a c (j + 1) rest

/-- The relationship-detection double loop
(`for i, analysis in enumerate(analyses): for j, other_name in ...`):
for every ordered pair of distinct indices, the first-matching strategy's
edge (if any). -/
def interContractEdgesOf (contractNames : List String)
    (pairs : List (ContractAnalysis × MultiContractInput)) :
    List InterContractEdge :=
  go 0 pairs
where
  go : Nat → List (ContractAnalysis × MultiContractInput) → List InterContractEdge
    | _, [] => []
    | i, p :: rest => pairEdgesGo i p.1 p.2 0 contractNames ++ go (i + 1) rest

/-- Stable insertion: `x` goes in front of the first element it compares
`le` to, hence before equal keys that were later in the input. -/
def stableInsert {α : Type} (le : α → α → Bool) (x : α) : List α → List α
  | [] => [x]
  | y :: ys => if le x y then x :: y :: ys else y :: stableInsert le x ys

/-- A stable sort (insertion sort).  Python's `sorted` is a stable sort
by key, and a stable sort's output is uniquely determined by the key
order and the input order, so this models `sorted(names, key=...)`
exactly. -/
def stableSort {α : Type} (le : α → α → Bool) : List α → List α
  | [] => []
  | x :: xs => stableInsert le x (stableSort le xs)

/-- The deployment-order computation: ascending stable sort of the names
by dependency count. -/
def deploymentOrderOf (contractNames : List String)
    (edges : List InterContractEdge) : List String :=
  stableSort
    (fun a b =>
      dependencyCountOf contractNames edges a ≤ dependencyCountOf contractNames edges b)
    contractNames

/-- `analyze_multi_contract(contracts)`. -/
def analyzeMultiContract (σ : List String → List String)
    (contracts : List MultiContractInput) : MultiContractAnalysis :=
  let analyses := contracts.map (analyzeOneInput σ)
  let contractNames := analyses.map (·.contract_name)
  let edges := interContractEdgesOf contractNames (analyses.zip contracts)
  { contracts := analyses, inter_contract_edges := edges,
    deployment_order := deploymentOrderOf contractNames edges }

/-! ### Concrete input trees used by the scenario theorems

Each `PyModule` below is the `ast.parse` image of the Python source shown
in its doc comment. -/

/-- Body of
```
class Counter(ARC4Contract):
    def __init__(self) -> None:
        self.count = UInt64(0)

    @arc4.abimethod
    def increment(self) -> None:
        self.count += 1
```
-/
def counterClassBody : List PyStmt :=
  [.funcDef "__init__" [("self", none)]
     [.assign [.attribute (.name "self") "count"]
        (.call (.name "UInt64") [.constInt 0] [])]
     [] (some .constNone) 2,
   .funcDef "increment" [("self", none)]
     [.augAssign (.attribute (.name "self") "count") "+" (.constInt 1)]
     [.attribute (.name "arc4") "abimethod"] (some .constNone) 5]

def counterModule : PyModule :=
  ⟨[.classDef "Counter" [.name "ARC4Contract"] counterClassBody 1]⟩

/-- Body of
```
class Pay(ARC4Contract):
    @subroutine
    def pay(self) -> None:
        itxn.Payment(1)
```
-/
def payClassBody : List PyStmt :=
  [.funcDef "pay" [("self", none)]
     [.exprStmt (.call (.attribute (.name "itxn") "Payment") [.constInt 1] [])]
     [.name "subroutine"] (some .constNone) 3]

def payModule : PyModule :=
  ⟨[.classDef "Pay" [.name "ARC4Contract"] payClassBody 1]⟩

/-- Body of
```
class PayM(ARC4Contract):
    @arc4.abimethod
    def pay(self) -> None:
        itxn.Payment(1)
```
-/
def payMethodClassBody : List PyStmt :=
  [.funcDef "pay" [("self", none)]
     [.exprStmt (.call (.attribute (.name "itxn") "Payment") [.constInt 1] [])]
     [.attribute (.name "arc4") "abimethod"] (some .constNone) 3]

def payMethodModule : PyModule :=
  ⟨[.classDef "PayM" [.name "ARC4Contract"] payMethodClassBody 1]⟩

/-- The analysis entry of `payMethodModule`'s single method. -/
def payMethodInfo : MethodInfo :=
  { name := "pay", params := [], return_type := "None", reads_state := [],
    writes_state := [], calls_methods := [], inner_txns := ["Payment"],
    emits_events := [], guards_count := 0, line_number := 3,
    decorator := "abimethod", is_readonly := false, is_create := false,
    allowed_actions := [], abi_signature := none, description := none }

/-- `class Empty(ARC4Contract): pass` -/
def emptyModule : PyModule :=
  ⟨[.classDef "Empty" [.name "ARC4Contract"] [.pass] 1]⟩

/-- Body of
```
class Guarded(ARC4Contract):
    @arc4.abimethod
    def f(self) -> None:
        assert True
```
-/
def guardedClassBody : List PyStmt :=
  [.funcDef "f" [("self", none)]
     [.assertStmt (.constBool true) none]
     [.attribute (.name "arc4") "abimethod"] (some .constNone) 3]

def guardedModule : PyModule :=
  ⟨[.classDef "Guarded" [.name "ARC4Contract"] guardedClassBody 1]⟩

/-- Body of
```
class Dup(ARC4Contract):
    def __init__(self) -> None:
        self.x = UInt64(0)
        self.x = String('a')
```
-/
def dupClassBody : List PyStmt :=
  [.funcDef "__init__" [("self", none)]
     [.assign [.attribute (.name "self") "x"]
        (.call (.name "UInt64") [.constInt 0] []),
      .assign [.attribute (.name "self") "x"]
        (.call (.name "String") [.constStr "a"] [])]
     [] (some .constNone) 2]

def dupModule : PyModule :=
  ⟨[.classDef "Dup" [.name "ARC4Contract"] dupClassBody 1]⟩

/-- `ast.parse` image of `multiCodeA` below. -/
def multiTreeA : PyModule :=
  ⟨[.classDef "A" [.name "ARC4Contract"]
      [.funcDef "f" [("self", none)]
         [.exprStmt (.call (.attribute (.name "itxn") "ApplicationCall") [.constInt 1] [])]
         [] (some .constNone) 2] 1]⟩

/-- Contract A's raw source: contains the literal `"B"` and the
cross-contract-call construct `itxn.ApplicationCall`. -/
def multiCodeA : String :=
  "class A(ARC4Contract):\n    def f(self) -> None:\n        itxn.ApplicationCall(1)\n# B\n"

/-- `ast.parse` image of `multiCodeB` below. -/
def multiTreeB : PyModule := ⟨[.classDef "B" [.name "ARC4Contract"] [.pass] 1]⟩

/-- Contract B's raw source.  Note it contains the letter `A` (inside
`ARC4Contract`), which strategy 1 of the relationship detection picks up
as a reference from B to A. -/
def multiCodeB : String := "class B(ARC4Contract):\n    pass\n"

def multiInA : MultiContractInput := ⟨"A", multiCodeA, .ok multiTreeA, none, none⟩

def multiInB : MultiContractInput := ⟨"B", multiCodeB, .ok multiTreeB, none, none⟩

/-- Contract B's source for the amended scenario: contains neither `"A"`
nor any case-insensitive naming variant of `A`. -/
def multiCodeBx : String := "x = 1\n"

def multiTreeBx : PyModule := ⟨[.assign [.name "x"] (.constInt 1)]⟩

def multiInBx : MultiContractInput := ⟨"B", multiCodeBx, .ok multiTreeBx, none, none⟩

/-- The expected A-to-B application-call edge. -/
def multiEdgeAB : InterContractEdge :=
  { from_contract := "A", to_contract := "B",
    relationship_type := "ApplicationCall", via_method := none }

/-- Body of
```
class Two(ARC4Contract):
    def __init__(self) -> None:
        self.x = UInt64(0)
        self.y = UInt64(0)

    @arc4.abimethod
    def get_sum(self) -> UInt64:
        return self.x + self.y
```
-/
def twoVarClassBody : List PyStmt :=
  [.funcDef "__init__" [("self", none)]
     [.assign [.attribute (.name "self") "x"]
        (.call (.name "UInt64") [.constInt 0] []),
      .assign [.attribute (.name "self") "y"]
        (.call (.name "UInt64") [.constInt 0] [])]
     [] (some .constNone) 2,
   .funcDef "get_sum" [("self", none)]
     [.ret (some (.binop (.attribute (.name "self") "x") "+"
        (.attribute (.name "self") "y")))]
     [.attribute (.name "arc4") "abimethod"] (some (.name "UInt64")) 6]

def twoVarModule : PyModule :=
  ⟨[.classDef "Two" [.name "ARC4Contract"] twoVarClassBody 1]⟩

/-- Member entries agreeing on every field except possibly the *order* of
their reads/writes lists. -/
def MethodEqExceptRW (m1 m2 : MethodInfo) : Prop :=
  m1.name = m2.name ∧ m1.params = m2.params ∧
  m1.return_type = m2.return_type ∧
  m1.reads_state.Perm m2.reads_state ∧
  m1.writes_state.Perm m2.writes_state ∧
  m1.calls_methods = m2.calls_methods ∧ m1.inner_txns = m2.inner_txns ∧
  m1.emits_events = m2.emits_events ∧ m1.guards_count = m2.guards_count ∧
  m1.line_number = m2.line_number ∧ m1.decorator = m2.decorator ∧
  m1.is_readonly = m2.is_readonly ∧ m1.is_create = m2.is_create ∧
  m1.allowed_actions = m2.allowed_actions ∧
  m1.abi_signature = m2.abi_signature ∧ m1.description = m2.description

/-- Analysis results agreeing everywhere except that each member's
reads/writes lists (and hence the storage-access map) may be permuted. -/
def EqUpToSetOrder (r1 r2 : ContractAnalysis) : Prop :=
  r1.contract_name = r2.contract_name ∧
  r1.state_variables = r2.state_variables ∧
  List.Forall₂ MethodEqExceptRW r1.methods r2.methods ∧
  List.Forall₂ MethodEqExceptRW r1.subroutines r2.subroutines ∧
  r1.call_graph = r2.call_graph ∧
  r1.storage_access_map.Perm r2.storage_access_map ∧
  r1.inner_txn_map = r2.inner_txn_map ∧
  r1.events = r2.events ∧
  r1.security_notes = r2.security_notes ∧
  r1.solidity_mapping = r2.solidity_mapping ∧
  r1.errors = r2.errors

/-! ## Theorems -/

/-! ### Generic helper lemmas -/

theorem dedupFirst_go_mem (l : List String) (acc : List String) (x : String) :
    x ∈ dedupFirst.go l acc → x ∈ l ∨ x ∈ acc := by
  induction l generalizing acc with
  | nil => intro h; right; simpa [dedupFirst.go] using h
  | cons a as ih =>
    intro h
    simp only [dedupFirst.go] at h
    by_cases hmem : a ∈ acc
    · simp [hmem] at h
      rcases ih _ h with h' | h'
      · left; exact List.mem_cons_of_mem _ h'
      · right; exact h'
    · simp [hmem] at h
      rcases ih _ h with h' | h'
      · left; exact List.mem_cons_of_mem _ h'
      · rcases List.mem_cons.mp h' with h'' | h''
        · left; exact h'' ▸ List.mem_cons_self _ _
        · right; exact h''

theorem dedupFirst_subset (l : List String) (x : String) :
    x ∈ dedupFirst l → x ∈ l := by
  intro h
  rcases dedupFirst_go_mem l [] x h with h' | h'
  · exact h'
  · simp at h'

/-- Two set-iteration orders that agree on the discovered name set give
the same analysis. -/
theorem analyzeClassBody_sigma (σ1 σ2 : List String → List String)
    (code : String) (a : Option Arc32Json) (s : Option String)
    (nm : String) (body : List PyStmt)
    (h : σ1 (dedupFirst ((stateVariablesOf body).map (·.name))) =
        σ2 (dedupFirst ((stateVariablesOf body).map (·.name)))) :
    analyzeClassBody σ1 code a s nm body = analyzeClassBody σ2 code a s nm body := by
  simp only [analyzeClassBody]
  rw [h]

/-!
### C1 — graceful degradation on parse failure

The parser is modelled as an oracle, so "never raises" is expressed by the
analyzer being a total function of the parse outcome; the theorem shows
that on the failure outcome the result is the degraded record: a single
error message with the `"Syntax error: "` prefix and every structural list
empty.
-/

/-- C1: for every input whose source fails to parse (oracle outcome
`.error msg`), `analyze_contract` returns normally with
`errors = ["Syntax error: " ++ msg]` and all structural lists empty. -/
theorem C1_parse_failure_degrades (σ : List String → List String)
    (code msg : String) (arc32 : Option Arc32Json) (sol : Option String) :
    (analyzeContract σ code (.error msg) arc32 sol).errors =
        ["Syntax error: " ++ msg] ∧
    (analyzeContract σ code (.error msg) arc32 sol).state_variables = [] ∧
    (analyzeContract σ code (.error msg) arc32 sol).methods = [] ∧
    (analyzeContract σ code (.error msg) arc32 sol).subroutines = [] ∧
    (analyzeContract σ code (.error msg) arc32 sol).call_graph = [] ∧
    (analyzeContract σ code (.error msg) arc32 sol).storage_access_map = [] ∧
    (analyzeContract σ code (.error msg) arc32 sol).inner_txn_map = [] ∧
    (analyzeContract σ code (.error msg) arc32 sol).events = [] ∧
    (analyzeContract σ code (.error msg) arc32 sol).security_notes = [] ∧
    (analyzeContract σ code (.error msg) arc32 sol).solidity_mapping = [] :=
  ⟨rfl, rfl, rfl, rfl, rfl, rfl, rfl, rfl, rfl, rfl⟩

/-!
### C10 — deployment order is a permutation of the analyzed names
-/

theorem stableInsert_perm {α : Type} (le : α → α → Bool) (x : α) (l : List α) :
    (stableInsert le x l).Perm (x :: l) := by
  induction l with
  | nil => exact List.Perm.refl _
  | cons y ys ih =>
      unfold stableInsert
      split
      · exact List.Perm.refl _
      · exact (List.Perm.cons y ih).trans (List.Perm.swap x y ys)

theorem stableSort_perm {α : Type} (le : α → α → Bool) (l : List α) :
    (stableSort le l).Perm l := by
  induction l with
  | nil => exact List.Perm.refl _
  | cons x xs ih =>
      unfold stableSort
      exact (stableInsert_perm le x (stableSort le xs)).trans (List.Perm.cons x ih)

/-- C10: for every input list of contracts, `deployment_order` is a
permutation of the analyzed contracts' names (each name occurs exactly as
often as contracts bearing it, and nothing else occurs), whatever edges
were detected. -/
theorem C10_deployment_order_perm (σ : List String → List String)
    (contracts : List MultiContractInput) :
    ((analyzeMultiContract σ contracts).deployment_order).Perm
      ((analyzeMultiContract σ contracts).contracts.map (·.contract_name)) := by
  simpa [analyzeMultiContract, deploymentOrderOf] using
    stableSort_perm
      (fun a b =>
        dependencyCountOf ((contracts.map (analyzeOneInput σ)).map (·.contract_name))
            (interContractEdgesOf
              ((contracts.map (analyzeOneInput σ)).map (·.contract_name))
              ((contracts.map (analyzeOneInput σ)).zip contracts)) a ≤
          dependencyCountOf ((contracts.map (analyzeOneInput σ)).map (·.contract_name))
            (interContractEdgesOf
              ((contracts.map (analyzeOneInput σ)).map (·.contract_name))
              ((contracts.map (analyzeOneInput σ)).zip contracts)) b)
      ((contracts.map (analyzeOneInput σ)).map (·.contract_name))

/-!
### C3 — Scenario A (the counter contract)

`"GlobalState"` is the analyzer's rendering of the single-global-value
storage kind.
-/

/-- C3: on the counter source, the analysis extracts exactly the state
variable `count` with single-global-value storage, one method `increment`
reading and writing `count` with `guard_count = 0`, and a `warning`
security note referencing `increment`.  The hypothesis pins the (unique)
iteration order of the one-element state-variable name set. -/
theorem C3_scenario_counter (σ : List String → List String)
    (hσ : σ ["count"] = ["count"]) :
    (analyzeContract σ "" (.ok counterModule) none none).state_variables =
      [{ name := "count", storage_type := "GlobalState", data_type := "UInt64",
         default_value := some "UInt64(0)" }] ∧
    (analyzeContract σ "" (.ok counterModule) none none).methods.map
        (fun m => (m.name, m.reads_state, m.writes_state, m.guards_count)) =
      [("increment", ["count"], ["count"], 0)] ∧
    ∃ n ∈ (analyzeContract σ "" (.ok counterModule) none none).security_notes,
      n.type = "warning" ∧ n.method = some "increment" := by
  have hd : ∀ σ' : List String → List String,
      analyzeContract σ' "" (.ok counterModule) none none =
        analyzeClassBody σ' "" none none "Counter" counterClassBody := fun _ => rfl
  have he : analyzeContract σ "" (.ok counterModule) none none =
      analyzeContract id "" (.ok counterModule) none none := by
    rw [hd σ, hd id]
    refine analyzeClassBody_sigma σ id "" none none "Counter" counterClassBody ?_
    have hl : dedupFirst ((stateVariablesOf counterClassBody).map (·.name)) =
        ["count"] := by decide
    rw [hl]
    exact hσ
  rw [he]
  exact ⟨by decide, by decide, by decide⟩

/-- Witness for C3 at the identity iteration order. -/
theorem C3_scenario_counter_witness :
    (analyzeContract id "" (.ok counterModule) none none).state_variables =
      [{ name := "count", storage_type := "GlobalState", data_type := "UInt64",
         default_value := some "UInt64(0)" }] ∧
    (analyzeContract id "" (.ok counterModule) none none).methods.map
        (fun m => (m.name, m.reads_state, m.writes_state, m.guards_count)) =
      [("increment", ["count"], ["count"], 0)] ∧
    ∃ n ∈ (analyzeContract id "" (.ok counterModule) none none).security_notes,
      n.type = "warning" ∧ n.method = some "increment" :=
  C3_scenario_counter id rfl

/-!
### C4 — danger notes for unguarded members with outbound calls

The note generator iterates only over the ABI/bare *methods*; an internal
helper (subroutine) with inner transactions and no guards gets no danger
note, so the claim's "invocable entry point or internal helper" fails on
the helpers.
-/

/-- Every result's security notes equal the generator applied to its
member lists — except in the degraded branches, where both the methods and
the notes are empty. -/
theorem analyzeContract_notes_shape (σ : List String → List String)
    (code : String) (parsed : Except String PyModule)
    (a : Option Arc32Json) (s : Option String) :
    ((analyzeContract σ code parsed a s).methods = [] ∧
      (analyzeContract σ code parsed a s).security_notes = []) ∨
    (analyzeContract σ code parsed a s).security_notes =
      generateSecurityNotes (analyzeContract σ code parsed a s).methods
        (analyzeContract σ code parsed a s).subroutines := by
  unfold analyzeContract
  match parsed with
  | .error msg => exact Or.inl ⟨rfl, rfl⟩
  | .ok tree =>
      dsimp only
      split
      · exact Or.inl ⟨rfl, rfl⟩
      · exact Or.inr rfl

/-- The generator emits a danger note for every method with inner
transactions and no guards. -/
theorem generateSecurityNotes_danger (ms subs : List MethodInfo)
    (m : MethodInfo) (hm : m ∈ ms) (hi : m.inner_txns ≠ [])
    (hg : m.guards_count = 0) :
    ∃ n ∈ generateSecurityNotes ms subs, n.type = "danger" ∧
      n.method = some m.name := by
  refine ⟨{ type := "danger",
            message := "Method '" ++ m.name ++
              "' makes inner transactions without any assertion guards!",
            method := some m.name }, ?_, rfl, rfl⟩
  unfold generateSecurityNotes
  simp only [List.append_assoc, List.mem_append]
  refine Or.inr (Or.inl ?_)
  refine List.mem_filterMap.mpr ⟨m, hm, ?_⟩
  have h1 : m.inner_txns.isEmpty = false := by
    cases h : m.inner_txns with
    | nil => exact absurd h hi
    | cons x xs => rfl
  simp [h1, hg]

/-- C4 (amended): every invocable *method* with at least one outbound
call and `guard_count = 0` gets a danger note naming it; internal helpers
are not covered by this rule. -/
theorem C4_amended_danger_for_methods (σ : List String → List String)
    (code : String) (parsed : Except String PyModule)
    (a : Option Arc32Json) (s : Option String) (m : MethodInfo)
    (hm : m ∈ (analyzeContract σ code parsed a s).methods)
    (hi : m.inner_txns ≠ []) (hg : m.guards_count = 0) :
    ∃ n ∈ (analyzeContract σ code parsed a s).security_notes,
      n.type = "danger" ∧ n.method = some m.name := by
  rcases analyzeContract_notes_shape σ code parsed a s with ⟨hm0, _⟩ | hs
  · rw [hm0] at hm; simp at hm
  · rw [hs]; exact generateSecurityNotes_danger _ _ m hm hi hg

/-- Witness for the amended C4 on a concrete unguarded paying method. -/
theorem C4_amended_danger_for_methods_witness :
    ∃ n ∈ (analyzeContract id "" (.ok payMethodModule) none none).security_notes,
      n.type = "danger" ∧ n.method = some payMethodInfo.name :=
  C4_amended_danger_for_methods id "" (.ok payMethodModule) none none
    payMethodInfo (by decide) (by decide) (by decide)

/-- C4 as stated is false: on a contract whose only member is an internal
helper that issues an inner transaction and has no guards, no danger note
(indeed no note naming it) is produced. -/
theorem C4_counterexample :
    ¬ ∀ (σ : List String → List String), (∀ l, (σ l).Perm l) →
        ∀ m ∈ (analyzeContract σ "" (.ok payModule) none none).methods ++
              (analyzeContract σ "" (.ok payModule) none none).subroutines,
          m.inner_txns ≠ [] → m.guards_count = 0 →
          ∃ n ∈ (analyzeContract σ "" (.ok payModule) none none).security_notes,
            n.type = "danger" ∧ n.method = some m.name := by
  intro h
  have hc := h id (fun l => List.Perm.refl l)
  revert hc
  decide

/-!
### C5 — the safe note

The generator guards the safe note with `non_readonly and ...`: when the
contract has *no* non-readonly invocable member at all, no safe note is
emitted, so the claim's vacuous case fails.
-/

/-- The generator emits exactly one safe note when there is at least one
non-readonly method and every non-readonly method is guarded. -/
theorem generateSecurityNotes_safe (ms subs : List MethodInfo)
    (hex : ∃ m ∈ ms, m.is_readonly = false)
    (hall : ∀ m ∈ ms, m.is_readonly = false → 0 < m.guards_count) :
    ((generateSecurityNotes ms subs).filter
        (fun n => n.type = "safe")).length = 1 := by
  unfold generateSecurityNotes
  simp only [List.filter_append, List.length_append]
  have hwarn : ∀ n ∈ ms.filterMap (fun m =>
      if m.guards_count = 0 && !m.is_readonly then
        some ({ type := "warning",
                message := "Method '" ++ m.name ++
                  "' has no assertion guards — consider adding sender/state checks.",
                method := some m.name } : SecurityNote)
      else none), ¬(n.type = "safe" : Bool) := by
    intro n hn
    rcases List.mem_filterMap.mp hn with ⟨m, _, hf⟩
    by_cases hc : (m.guards_count = 0 && !m.is_readonly : Bool)
    · simp [hc] at hf; subst hf; simp
    · simp [hc] at hf
  have hdang : ∀ n ∈ ms.filterMap (fun m =>
      if !m.inner_txns.isEmpty && m.guards_count = 0 then
        some ({ type := "danger",
                message := "Method '" ++ m.name ++
                  "' makes inner transactions without any assertion guards!",
                method := some m.name } : SecurityNote)
      else none), ¬(n.type = "safe" : Bool) := by
    intro n hn
    rcases List.mem_filterMap.mp hn with ⟨m, _, hf⟩
    by_cases hc : (!m.inner_txns.isEmpty && m.guards_count = 0 : Bool)
    · simp [hc] at hf; subst hf; simp
    · simp [hc] at hf
  rw [List.filter_eq_nil_iff.mpr hwarn, List.filter_eq_nil_iff.mpr hdang]
  have hfe : ms.filter (fun m => decide (m.guards_count > 0) && !m.is_readonly) =
      ms.filter (fun m => !m.is_readonly) := by
    refine List.filter_congr ?_
    intro m hm
    cases hro : m.is_readonly with
    | true => simp [hro]
    | false =>
        have := hall m hm hro
        simp [hro, this]
  have hne : (ms.filter (fun m => !m.is_readonly)).isEmpty = false := by
    rcases hex with ⟨m, hm, hro⟩
    have : m ∈ ms.filter (fun m => !m.is_readonly) :=
      List.mem_filter.mpr ⟨hm, by simp [hro]⟩
    cases h : ms.filter (fun m => !m.is_readonly) with
    | nil => rw [h] at this; simp at this
    | cons x xs => rfl
  rw [hfe]
  simp only [hne, Bool.not_false, Bool.true_and, if_pos rfl]
  have hinfo : ((if ms.any (·.is_create) then ([] : List SecurityNote)
      else [{ type := "info",
              message := "No explicit create method found — contract may use a bare 'create' method.",
              method := none }]).filter (fun n => n.type = "safe")).length = 0 := by
    split <;> decide
  simp only [decide_True, List.filter_cons_of_pos, List.filter_nil]
  split <;> simp_all

/-- C5 (amended): when the contract has at least one non-readonly
invocable member and every non-readonly invocable member has
`guard_count > 0`, the security notes contain exactly one safe note (the
vacuous case emits none). -/
theorem C5_amended_safe_note (σ : List String → List String)
    (code : String) (parsed : Except String PyModule)
    (a : Option Arc32Json) (s : Option String)
    (hex : ∃ m ∈ (analyzeContract σ code parsed a s).methods, m.is_readonly = false)
    (hall : ∀ m ∈ (analyzeContract σ code parsed a s).methods,
      m.is_readonly = false → 0 < m.guards_count) :
    (((analyzeContract σ code parsed a s).security_notes).filter
        (fun n => n.type = "safe")).length = 1 := by
  rcases analyzeContract_notes_shape σ code parsed a s with ⟨hm0, _⟩ | hs
  · rw [hm0] at hex; simp at hex
  · rw [hs]; exact generateSecurityNotes_safe _ _ hex hall

/-- Witness for the amended C5 on a concrete guarded contract. -/
theorem C5_amended_safe_note_witness :
    (((analyzeContract id "" (.ok guardedModule) none none).security_notes).filter
        (fun n => n.type = "safe")).length = 1 :=
  C5_amended_safe_note id "" (.ok guardedModule) none none
    (by decide) (by decide)

/-- C5 as stated is false: on a contract with no invocable members at all
(the vacuous case), every non-readonly invocable member trivially has
guards, yet no safe note is emitted. -/
theorem C5_counterexample :
    ¬ ∀ (σ : List String → List String), (∀ l, (σ l).Perm l) →
        (∀ m ∈ (analyzeContract σ "" (.ok emptyModule) none none).methods,
          m.is_readonly = false → 0 < m.guards_count) →
        (((analyzeContract σ "" (.ok emptyModule) none none).security_notes).filter
            (fun n => n.type = "safe")).length = 1 := by
  intro h
  have hc := h id (fun l => List.Perm.refl l)
  revert hc
  decide

/-!
### C2 — referential integrity of the derived graphs
-/

theorem storageAccessStep_fst_mem (src : String) (acc : List String × List String)
    (v x : String) : x ∈ (storageAccessStep src acc v).1 → x ∈ acc.1 ∨ x = v := by
  unfold storageAccessStep
  dsimp only
  split
  · dsimp only
    split
    · exact fun h => Or.inl h
    · intro h
      rcases List.mem_append.mp h with h | h
      · exact Or.inl h
      · simp at h; exact Or.inr h
  · dsimp only
    split
    · intro h
      rcases List.mem_append.mp h with h | h
      · exact Or.inl h
      · simp at h; exact Or.inr h
    · exact fun h => Or.inl h

theorem storageAccessStep_snd_mem (src : String) (acc : List String × List String)
    (v x : String) : x ∈ (storageAccessStep src acc v).2 → x ∈ acc.2 ∨ x = v := by
  unfold storageAccessStep
  dsimp only
  split
  · dsimp only
    split
    · exact fun h => Or.inl h
    · intro h
      rcases List.mem_append.mp h with h | h
      · exact Or.inl h
      · simp at h; exact Or.inr h
  · dsimp only
    split
    · intro h
      rcases List.mem_append.mp h with h | h
      · exact Or.inl h
      · simp at h; exact Or.inr h
    · exact fun h => Or.inl h

theorem findStorageAccess_foldl_subset (src : String) (vars : List String) :
    ∀ (acc : List String × List String),
      (∀ x ∈ (vars.foldl (storageAccessStep src) acc).1, x ∈ acc.1 ∨ x ∈ vars) ∧
      (∀ x ∈ (vars.foldl (storageAccessStep src) acc).2, x ∈ acc.2 ∨ x ∈ vars) := by
  induction vars with
  | nil => intro acc; simp
  | cons v vs ih =>
      intro acc
      constructor
      · intro x hx
        rcases (ih (storageAccessStep src acc v)).1 x hx with h | h
        · rcases storageAccessStep_fst_mem src acc v x h with h' | h'
          · exact Or.inl h'
          · exact Or.inr (h' ▸ List.mem_cons_self _ _)
        · exact Or.inr (List.mem_cons_of_mem _ h)
      · intro x hx
        rcases (ih (storageAccessStep src acc v)).2 x hx with h | h
        · rcases storageAccessStep_snd_mem src acc v x h with h' | h'
          · exact Or.inl h'
          · exact Or.inr (h' ▸ List.mem_cons_self _ _)
        · exact Or.inr (List.mem_cons_of_mem _ h)

theorem findStorageAccess_subset (body : List PyStmt) (vars : List String) :
    (∀ x ∈ (findStorageAccess body vars).1, x ∈ vars) ∧
    (∀ x ∈ (findStorageAccess body vars).2, x ∈ vars) := by
  have h := findStorageAccess_foldl_subset (bodySource body) vars ([], [])
  constructor
  · intro x hx
    rcases h.1 x hx with h' | h'
    · simp at h'
    · exact h'
  · intro x hx
    rcases h.2 x hx with h' | h'
    · simp at h'
    · exact h'

/-- All branches of `processMember` carry the storage-access result of the
member body unchanged. -/
theorem processMember_rw (vni svn : List String) (nm : String)
    (args : List (String × Option PyExpr)) (body : List PyStmt)
    (decs : List PyExpr) (ret : Option PyExpr) (ln : Nat) :
    (processMember vni svn nm args body decs ret ln).1.reads_state =
        (findStorageAccess body vni).1 ∧
    (processMember vni svn nm args body decs ret ln).1.writes_state =
        (findStorageAccess body vni).2 := by
  unfold processMember
  dsimp only
  split
  · exact ⟨rfl, rfl⟩
  · split
    · exact ⟨rfl, rfl⟩
    · exact ⟨rfl, rfl⟩

theorem memberEntriesOf_rw_subset (vni svn : List String) (clsBody : List PyStmt)
    (p : MethodInfo × Bool) (hp : p ∈ memberEntriesOf vni svn clsBody) :
    (∀ x ∈ p.1.reads_state, x ∈ vni) ∧ (∀ x ∈ p.1.writes_state, x ∈ vni) := by
  rcases List.mem_filterMap.mp hp with ⟨node, _, hsome⟩
  cases node with
  | funcDef nm args body decs ret ln =>
      by_cases hi : nm = "__init__"
      · simp [hi] at hsome
      · simp [hi] at hsome
        have hr := processMember_rw vni svn nm args body decs ret ln
        rw [← hsome]
        rw [hr.1, hr.2]
        exact ⟨(findStorageAccess_subset body vni).1, (findStorageAccess_subset body vni).2⟩
  | assign t v => simp at hsome
  | annAssign t a v => simp at hsome
  | augAssign t o v => simp at hsome
  | exprStmt e => simp at hsome
  | ret e => simp at hsome
  | assertStmt t m => simp at hsome
  | pass => simp at hsome
  | classDef nm bases body ln => simp at hsome

theorem applyArc32One_name (j : Arc32Json) (m : MethodInfo) :
    (applyArc32One j m).name = m.name := by
  unfold applyArc32One
  split
  · rfl
  · dsimp only
    split
    · split <;> rfl
    · rfl

theorem applyArc32_names (a : Option Arc32Json) (ms : List MethodInfo) :
    (applyArc32 a ms).map (·.name) = ms.map (·.name) := by
  cases a with
  | none => rfl
  | some j =>
      show (ms.map (applyArc32One j)).map (·.name) = ms.map (·.name)
      induction ms with
      | nil => rfl
      | cons x xs ih => simp only [List.map_cons, applyArc32One_name, ih]

/-- Members of the built lists come from `memberEntriesOf`. -/
theorem members_from_entries (vni svn : List String) (clsBody : List PyStmt)
    (m : MethodInfo)
    (hm : m ∈ ((memberEntriesOf vni svn clsBody).filter (·.2)).map (·.1) ++
          ((memberEntriesOf vni svn clsBody).filter (fun e => !e.2)).map (·.1)) :
    ∃ p ∈ memberEntriesOf vni svn clsBody, p.1 = m := by
  rcases List.mem_append.mp hm with h | h
  · rcases List.mem_map.mp h with ⟨p, hp, he⟩
    exact ⟨p, (List.mem_filter.mp hp).1, he⟩
  · rcases List.mem_map.mp h with ⟨p, hp, he⟩
    exact ⟨p, (List.mem_filter.mp hp).1, he⟩

/-- Every call-graph edge's target is in the known-names list the graph
was filtered against. -/
theorem callGraphOf_to_mem (names : List String) (members : List MethodInfo)
    (e : CallGraphEdge) (he : e ∈ callGraphOf names members) : e.to ∈ names := by
  rcases List.mem_flatMap.mp he with ⟨m, _, hfm⟩
  rcases List.mem_filterMap.mp hfm with ⟨callee, _, hsome⟩
  split at hsome
  case isTrue hc =>
    cases hsome
    simpa using hc
  case isFalse => exact absurd hsome (by simp)

/-- Referential integrity at the class-body level. -/
theorem analyzeClassBody_integrity (σ : List String → List String)
    (hσ : ∀ (l : List String) (x : String), x ∈ σ l → x ∈ l)
    (code : String) (a : Option Arc32Json) (s : Option String)
    (nm : String) (body : List PyStmt) :
    (∀ e ∈ (analyzeClassBody σ code a s nm body).storage_access_map,
        e.variable ∈ ((analyzeClassBody σ code a s nm body).state_variables).map (·.name)) ∧
    (∀ e ∈ (analyzeClassBody σ code a s nm body).call_graph,
        e.to ∈ ((analyzeClassBody σ code a s nm body).methods).map (·.name) ++
              ((analyzeClassBody σ code a s nm body).subroutines).map (·.name)) := by
  have hvni : ∀ x ∈ σ (dedupFirst ((stateVariablesOf body).map (·.name))),
      x ∈ (stateVariablesOf body).map (·.name) := by
    intro x hx
    exact dedupFirst_subset _ x (hσ _ x hx)
  constructor
  · intro e he
    show e.variable ∈ (stateVariablesOf body).map (·.name)
    have he' : e ∈ storageMapOf
        (((memberEntriesOf (σ (dedupFirst ((stateVariablesOf body).map (·.name))))
              ((stateVariablesOf body).map (·.name)) body).filter (·.2)).map (·.1) ++
         ((memberEntriesOf (σ (dedupFirst ((stateVariablesOf body).map (·.name))))
              ((stateVariablesOf body).map (·.name)) body).filter (fun e => !e.2)).map (·.1)) := he
    rcases List.mem_flatMap.mp he' with ⟨m, hm, hseg⟩
    rcases members_from_entries _ _ _ m hm with ⟨p, hp, hpm⟩
    have hrw := memberEntriesOf_rw_subset _ _ _ p hp
    rcases List.mem_append.mp hseg with h | h
    · rcases List.mem_map.mp h with ⟨v, hv, hev⟩
      have : e.variable = v := by rw [← hev]
      rw [this]
      exact hvni v (hrw.1 v (hpm ▸ hv))
    · rcases List.mem_map.mp h with ⟨v, hv, hev⟩
      have : e.variable = v := by rw [← hev]
      rw [this]
      exact hvni v (hrw.2 v (hpm ▸ hv))
  · intro e he
    have hto : e.to ∈
        (((memberEntriesOf (σ (dedupFirst ((stateVariablesOf body).map (·.name))))
              ((stateVariablesOf body).map (·.name)) body).filter (·.2)).map (·.1)).map (·.name) ++
          (((memberEntriesOf (σ (dedupFirst ((stateVariablesOf body).map (·.name))))
              ((stateVariablesOf body).map (·.name)) body).filter (fun e => !e.2)).map (·.1)).map (·.name) :=
      callGraphOf_to_mem _ _ e he
    show e.to ∈ ((applyArc32 a _).map (·.name)) ++ _
    rw [applyArc32_names a]
    exact hto

/-- C2: in every analysis result, every storage-access edge's `variable`
is the name of an extracted state variable and every call-graph edge's
`to` is the name of an extracted member; dangling references are dropped.
The hypothesis states that the modelled set-iteration order only reorders
(or drops) elements of the name set. -/
theorem C2_referential_integrity (σ : List String → List String)
    (hσ : ∀ (l : List String) (x : String), x ∈ σ l → x ∈ l)
    (code : String) (parsed : Except String PyModule)
    (a : Option Arc32Json) (s : Option String) :
    (∀ e ∈ (analyzeContract σ code parsed a s).storage_access_map,
        e.variable ∈ ((analyzeContract σ code parsed a s).state_variables).map (·.name)) ∧
    (∀ e ∈ (analyzeContract σ code parsed a s).call_graph,
        e.to ∈ ((analyzeContract σ code parsed a s).methods).map (·.name) ++
              ((analyzeContract σ code parsed a s).subroutines).map (·.name)) := by
  unfold analyzeContract
  match parsed with
  | .error msg => constructor <;> intro e he <;> simp [degradedResult] at he
  | .ok tree =>
      dsimp only
      split
      · constructor <;> intro e he <;> simp [degradedResult] at he
      · exact analyzeClassBody_integrity σ hσ code a s _ _

/-- Witness for C2 at the identity order on the counter contract. -/
theorem C2_referential_integrity_witness :
    (∀ e ∈ (analyzeContract id "" (.ok counterModule) none none).storage_access_map,
        e.variable ∈ ((analyzeContract id "" (.ok counterModule) none none).state_variables).map (·.name)) ∧
    (∀ e ∈ (analyzeContract id "" (.ok counterModule) none none).call_graph,
        e.to ∈ ((analyzeContract id "" (.ok counterModule) none none).methods).map (·.name) ++
              ((analyzeContract id "" (.ok counterModule) none none).subroutines).map (·.name)) :=
  C2_referential_integrity id (fun _ _ hx => hx) "" (.ok counterModule) none none

/-!
### C6 — duplicate attribute assignments

The extractor *appends* an entry for every qualifying assignment; there is
no deduplication and no overwriting, so duplicate names yield duplicate
entries, each classified by its own assignment.
-/

theorem stateVarOfTarget_name (value t : PyExpr) :
    (stateVarOfTarget value t).map (·.name) = selfAttrName t := by
  cases t
  case «attribute» base attr =>
    cases base
    case name id =>
      by_cases h : id = "self"
      · subst h
        simp only [stateVarOfTarget, selfAttrName, if_pos rfl]
        cases detectStorageCall value with
        | none => rfl
        | some p =>
            rcases p with ⟨st, dt, dv⟩
            rfl
      · simp [stateVarOfTarget, selfAttrName, h]
    all_goals rfl
  all_goals rfl

theorem stateVarsOfInitStmt_names (st : PyStmt) :
    (stateVarsOfInitStmt st).map (·.name) = collectInitNames st := by
  cases st
  case assign targets value =>
    show (targets.filterMap (stateVarOfTarget value)).map (·.name) =
      targets.filterMap selfAttrName
    induction targets with
    | nil => rfl
    | cons t ts ih =>
        simp only [List.filterMap_cons]
        have hh := stateVarOfTarget_name value t
        cases hsv : stateVarOfTarget value t with
        | none =>
            rw [hsv] at hh
            simp only [Option.map_none'] at hh
            rw [← hh]
            exact ih
        | some sv =>
            rw [hsv] at hh
            simp only [Option.map_some'] at hh
            rw [← hh]
            simp only [List.map_cons]
            rw [ih]
  all_goals rfl

theorem stateVarsOfClassStmt_names (st : PyStmt) :
    (stateVarsOfClassStmt st).map (·.name) = collectClassStmtNames st := by
  cases st
  case funcDef nm args ibody decs ret ln =>
    by_cases h : nm = "__init__"
    · subst h
      simp only [stateVarsOfClassStmt, collectClassStmtNames, eq_self_iff_true,
        if_true]
      induction ibody with
      | nil => rfl
      | cons s ss ih =>
          simp only [eq_self_iff_true, if_true] at ih
          simp only [List.flatMap_cons, List.map_append,
            stateVarsOfInitStmt_names, ih]
    · simp [stateVarsOfClassStmt, collectClassStmtNames, h]
  case annAssign t a v =>
    cases t
    case name vn =>
      simp only [stateVarsOfClassStmt, collectClassStmtNames]
      cases hf : storageConstructorsTbl.find? (fun kv => strIn kv.1 (unparseExpr a)) with
      | none =>
          have hany : storageConstructorsTbl.any (fun kv => strIn kv.1 (unparseExpr a)) = false := by
            rw [List.any_eq_false]
            intro kv hkv
            have := List.find?_eq_none.mp hf kv hkv
            simpa using this
          simp [hany]
      | some kv =>
          have hmem := List.mem_of_find?_eq_some hf
          have hpred := List.find?_some hf
          have hany : storageConstructorsTbl.any (fun kv => strIn kv.1 (unparseExpr a)) = true :=
            List.any_eq_true.mpr ⟨kv, hmem, hpred⟩
          simp [hany]
    all_goals rfl
  all_goals rfl

/-- C6 (amended): the extracted state-variable names are exactly the
target names of the qualifying assignments, one per assignment, in source
order; duplicate names are kept as separate entries — there is no
last-write-wins collapsing and names need not be unique. -/
theorem C6_amended_one_entry_per_assignment (σ : List String → List String)
    (code : String) (a : Option Arc32Json) (s : Option String)
    (nm : String) (body : List PyStmt) :
    ((analyzeClassBody σ code a s nm body).state_variables).map (·.name) =
      collectedStateVarNames body := by
  show (stateVariablesOf body).map (·.name) = collectedStateVarNames body
  unfold stateVariablesOf collectedStateVarNames
  induction body with
  | nil => rfl
  | cons st sts ih =>
      simp only [List.flatMap_cons, List.map_append, stateVarsOfClassStmt_names, ih]

/-- C6 as stated is false: assigning `self.x` twice in the initializer
yields two entries named `x` (first classified `UInt64`, then `String`),
not a single last-write-wins entry with a unique name. -/
theorem C6_counterexample :
    ¬ ∀ (σ : List String → List String), (∀ l, (σ l).Perm l) →
        (((analyzeContract σ "" (.ok dupModule) none none).state_variables).map
            (·.name)).Nodup := by
  intro h
  have hc := h id (fun l => List.Perm.refl l)
  revert hc
  decide

/-!
### C7 — inter-contract edges and deployment order

The general dependency-count/stable-sort description is what
`deploymentOrderOf` implements.  The scenario conclusion fails as stated:
with contract names `A`/`B`, any realistic B source (e.g. containing the
word `ARC4Contract`, hence the letter `A`) triggers a reverse
`references` edge from B to A, the counts tie, and the stable sort keeps
the input order — so `"B"` is *not* placed before `"A"`.
-/

/-- Projection lemma: the edge list of a multi-contract analysis. -/
theorem analyzeMultiContract_edges (σ : List String → List String)
    (contracts : List MultiContractInput) :
    (analyzeMultiContract σ contracts).inter_contract_edges =
      interContractEdgesOf
        ((contracts.map (analyzeOneInput σ)).map (·.contract_name))
        ((contracts.map (analyzeOneInput σ)).zip contracts) := rfl

/-- Projection lemma: the deployment order of a multi-contract analysis. -/
theorem analyzeMultiContract_deployment (σ : List String → List String)
    (contracts : List MultiContractInput) :
    (analyzeMultiContract σ contracts).deployment_order =
      deploymentOrderOf
        ((contracts.map (analyzeOneInput σ)).map (·.contract_name))
        (interContractEdgesOf
          ((contracts.map (analyzeOneInput σ)).map (·.contract_name))
          ((contracts.map (analyzeOneInput σ)).zip contracts)) := rfl

/-- Strategy 1 always fires for the pair (A, B), whatever A's member
lists contain. -/
theorem detectEdge_A_to_B (mD sD : List MethodInfo) :
    detectEdge "A" multiCodeA (lowerStr multiCodeA) mD sD "B"
        (nameVariantsOf "B") = some multiEdgeAB := by
  unfold detectEdge
  rw [show strIn "B" multiCodeA = true by decide,
    show strIn "itxn.ApplicationCall" multiCodeA = true by decide]
  rfl

/-- All three strategies fail for an ordered pair whose source contains
neither the other name nor any of its variants, and whose methods issue
no cross-contract call. -/
theorem detectEdge_none_of_no_reference (codeB : String)
    (mB sB : List MethodInfo)
    (h1 : strIn "A" codeB = false)
    (h2 : ∀ v ∈ nameVariantsOf "A", strIn v (lowerStr codeB) = false)
    (h3 : ∀ m ∈ mB, m.inner_txns.contains "ApplicationCall" = false) :
    detectEdge "B" codeB (lowerStr codeB) mB sB "A" (nameVariantsOf "A") =
      none := by
  unfold detectEdge
  rw [h1]
  simp only [Bool.false_eq_true, if_false]
  rw [List.find?_eq_none.mpr (fun v hv => by simp [h2 v hv])]
  simp only []
  have hp : findAppCallViaParam mB (nameVariantsOf "A") = none := by
    unfold findAppCallViaParam
    rw [List.find?_eq_none.mpr (fun m hm => by rw [h3 m hm]; simp)]
    rfl
  rw [hp]
  rfl

/-- C7 (amended): the dependency-count/stable-sort order as described;
and for two contracts `A`, `B` where A's source contains the literal
string `"B"` and a cross-contract-call construct, *and B's source
contains no occurrence of A's name nor (case-insensitively) any of its
naming variants, and no method of B issues a cross-contract call*, the
result contains exactly the edge A→B with kind `ApplicationCall` and
`deployment_order` places `"B"` before `"A"`.  (Without the extra proviso
a reverse edge ties the dependency counts and the stable sort keeps the
input order.) -/
theorem C7_amended_scenario (σ : List String → List String)
    (codeB : String) (parsedB : Except String PyModule)
    (h1 : strIn "A" codeB = false)
    (h2 : ∀ v ∈ nameVariantsOf "A", strIn v (lowerStr codeB) = false)
    (h3 : ∀ m ∈ (analyzeOneInput σ ⟨"B", codeB, parsedB, none, none⟩).methods,
        m.inner_txns.contains "ApplicationCall" = false) :
    (analyzeMultiContract σ
        [multiInA, ⟨"B", codeB, parsedB, none, none⟩]).inter_contract_edges =
      [multiEdgeAB] ∧
    (analyzeMultiContract σ
        [multiInA, ⟨"B", codeB, parsedB, none, none⟩]).deployment_order =
      ["B", "A"] := by
  have hna : (analyzeOneInput σ multiInA).contract_name = "A" := rfl
  have hnb : (analyzeOneInput σ ⟨"B", codeB, parsedB, none, none⟩).contract_name =
      "B" := rfl
  have hedges0 : interContractEdgesOf
      (([multiInA, ⟨"B", codeB, parsedB, none, none⟩].map (analyzeOneInput σ)).map
        (·.contract_name))
      (([multiInA, ⟨"B", codeB, parsedB, none, none⟩].map (analyzeOneInput σ)).zip
        [multiInA, ⟨"B", codeB, parsedB, none, none⟩]) = [multiEdgeAB] := by
    simp only [List.map_cons, List.map_nil, List.zip_cons_cons, List.zip_nil_right,
      hna, hnb]
    simp only [interContractEdgesOf, interContractEdgesOf.go, pairEdgesGo,
      List.append_nil]
    norm_num
    rw [hna, hnb]
    rw [show multiInA.algopy_code = multiCodeA from rfl]
    rw [detectEdge_A_to_B]
    rw [detectEdge_none_of_no_reference codeB _ _ h1 h2 h3]
    rfl
  constructor
  · rw [analyzeMultiContract_edges]
    exact hedges0
  · rw [analyzeMultiContract_deployment]
    rw [hedges0]
    rw [show ([multiInA, (⟨"B", codeB, parsedB, none, none⟩ : MultiContractInput)].map
        (analyzeOneInput σ)).map (·.contract_name) = ["A", "B"] by
      simp only [List.map_cons, List.map_nil, hna, hnb]]
    decide

/-- Witness for the amended C7 with B's source `"x = 1\n"`. -/
theorem C7_amended_scenario_witness :
    (analyzeMultiContract id [multiInA, multiInBx]).inter_contract_edges =
      [multiEdgeAB] ∧
    (analyzeMultiContract id [multiInA, multiInBx]).deployment_order =
      ["B", "A"] :=
  C7_amended_scenario id multiCodeBx (.ok multiTreeBx)
    (by decide) (by decide) (by decide)

/-- C7's scenario conclusion as stated is false: with
`B = class B(ARC4Contract): pass`, the A→B ApplicationCall edge is
present, yet `deployment_order` does not place `"B"` before `"A"` (a
reverse B→A `references` edge — the letter `A` occurs in B's source —
ties the counts and input order prevails). -/
theorem C7_counterexample :
    ¬ ∀ (σ : List String → List String), (∀ l, (σ l).Perm l) →
        multiEdgeAB ∈ (analyzeMultiContract σ [multiInA, multiInB]).inter_contract_edges →
        (analyzeMultiContract σ [multiInA, multiInB]).deployment_order.indexOf "B" <
          (analyzeMultiContract σ [multiInA, multiInB]).deployment_order.indexOf "A" := by
  intro h
  have hc := h id (fun l => List.Perm.refl l)
  revert hc
  decide

/-!
### C9 — the ARC-32 cross-reference is a frame-preserving merge
-/

theorem applyArc32One_core (j : Arc32Json) (m : MethodInfo) :
    methodCore (applyArc32One j m) = methodCore m := by
  unfold applyArc32One
  split
  · rfl
  · dsimp only
    split
    · split <;> rfl
    · rfl

theorem filterMap_map_inv {α β : Type} (g : α → α) (f : α → Option β)
    (h : ∀ a, f (g a) = f a) (l : List α) :
    (l.map g).filterMap f = l.filterMap f := by
  induction l with
  | nil => rfl
  | cons x xs ih => simp only [List.map_cons, List.filterMap_cons, h x, ih]

theorem filter_map_length_inv {α : Type} (g : α → α) (p : α → Bool)
    (h : ∀ a, p (g a) = p a) (l : List α) :
    ((l.map g).filter p).length = (l.filter p).length := by
  induction l with
  | nil => rfl
  | cons x xs ih =>
      simp only [List.map_cons, List.filter_cons, h x]
      split <;> simp [ih]

theorem filter_map_isEmpty_inv {α : Type} (g : α → α) (p : α → Bool)
    (h : ∀ a, p (g a) = p a) (l : List α) :
    ((l.map g).filter p).isEmpty = (l.filter p).isEmpty := by
  induction l with
  | nil => rfl
  | cons x xs ih =>
      simp only [List.map_cons, List.filter_cons, h x]
      split <;> simp [ih]

theorem any_map_inv {α : Type} (g : α → α) (q : α → Bool)
    (h : ∀ a, q (g a) = q a) (l : List α) :
    (l.map g).any q = l.any q := by
  induction l with
  | nil => rfl
  | cons x xs ih => simp only [List.map_cons, List.any_cons, h x, ih]

/-- Field projections preserved by the per-method merge. -/
theorem applyArc32One_fields (j : Arc32Json) (m : MethodInfo) :
    (applyArc32One j m).name = m.name ∧
    (applyArc32One j m).guards_count = m.guards_count ∧
    (applyArc32One j m).is_readonly = m.is_readonly ∧
    (applyArc32One j m).inner_txns = m.inner_txns ∧
    (applyArc32One j m).is_create = m.is_create := by
  have h := applyArc32One_core j m
  unfold methodCore at h
  exact ⟨congrArg (·.1) h, congrArg (·.2.2.2.2.2.2.2.2.1) h,
    congrArg (·.2.2.2.2.2.2.2.2.2.2.2.1) h,
    congrArg (·.2.2.2.2.2.2.1) h,
    congrArg (·.2.2.2.2.2.2.2.2.2.2.2.2.1) h⟩

/-- The security notes read only merge-invariant fields, so the ARC-32
merge does not change them. -/
theorem generateSecurityNotes_applyArc32 (j : Arc32Json)
    (ms subs : List MethodInfo) :
    generateSecurityNotes (ms.map (applyArc32One j)) subs =
      generateSecurityNotes ms subs := by
  unfold generateSecurityNotes
  rw [filterMap_map_inv (applyArc32One j) _ (fun m => by
    rcases applyArc32One_fields j m with ⟨h1, h2, h3, _, _⟩
    rw [h1, h2, h3])]
  rw [filterMap_map_inv (applyArc32One j) _ (fun m => by
    rcases applyArc32One_fields j m with ⟨h1, h2, _, h4, _⟩
    rw [h1, h2, h4])]
  simp only [
    filter_map_length_inv (applyArc32One j)
      (fun m => decide (m.guards_count > 0) && !m.is_readonly)
      (fun m => by
        rcases applyArc32One_fields j m with ⟨_, h2, h3, _, _⟩
        simp only [h2, h3]),
    filter_map_length_inv (applyArc32One j) (fun m => !m.is_readonly)
      (fun m => by
        rcases applyArc32One_fields j m with ⟨_, _, h3, _, _⟩
        simp only [h3]),
    filter_map_isEmpty_inv (applyArc32One j) (fun m => !m.is_readonly)
      (fun m => by
        rcases applyArc32One_fields j m with ⟨_, _, h3, _, _⟩
        simp only [h3]),
    any_map_inv (applyArc32One j) (fun m => m.is_create)
      (fun m => by
        rcases applyArc32One_fields j m with ⟨_, _, _, _, h5⟩
        simp only [h5])]

/-- The ARC-32 merge leaves the security notes unchanged. -/
theorem analyzeClassBody_notes_arc32 (σ : List String → List String)
    (code : String) (sp : Arc32Json) (sol : Option String)
    (cn : String) (body : List PyStmt) :
    (analyzeClassBody σ code (some sp) sol cn body).security_notes =
      (analyzeClassBody σ code none sol cn body).security_notes := by
  unfold analyzeClassBody
  dsimp only
  simp only [applyArc32]
  exact generateSecurityNotes_applyArc32 sp _ _

/-- What the merge does to one matched or unmatched method. -/
theorem applyArc32One_spec (j : Arc32Json) (m : MethodInfo) :
    match arc32LookupByName j m.name with
    | none => applyArc32One j m = m
    | some info =>
        (applyArc32One j m).abi_signature = some (sigOfArc32 m.name info) ∧
        (applyArc32One j m).description =
          (match info.desc with
           | some d => if d ≠ "" then some d else m.description
           | none => m.description) := by
  cases h : arc32LookupByName j m.name with
  | none =>
      simp only
      unfold applyArc32One
      rw [h]
  | some info =>
      simp only
      unfold applyArc32One
      rw [h]
      dsimp only
      cases hd : info.desc with
      | none => exact ⟨rfl, rfl⟩
      | some d =>
          dsimp only
          split <;> exact ⟨rfl, rfl⟩

/-- C9: supplying an interface specification changes nothing but the
methods' `abi_signature`/`description` fields: every other part of the
result is identical to the analysis without the specification; unmatched
methods are not mutated at all; a matched method keeps every other field
and gains the `name(type,...)ret` signature, plus the description when
the descriptor carries a non-empty one. -/
theorem C9_arc32_frame (σ : List String → List String) (code : String)
    (parsed : Except String PyModule) (sp : Arc32Json) (sol : Option String) :
    (analyzeContract σ code parsed (some sp) sol).contract_name =
        (analyzeContract σ code parsed none sol).contract_name ∧
    (analyzeContract σ code parsed (some sp) sol).state_variables =
        (analyzeContract σ code parsed none sol).state_variables ∧
    (analyzeContract σ code parsed (some sp) sol).subroutines =
        (analyzeContract σ code parsed none sol).subroutines ∧
    (analyzeContract σ code parsed (some sp) sol).call_graph =
        (analyzeContract σ code parsed none sol).call_graph ∧
    (analyzeContract σ code parsed (some sp) sol).storage_access_map =
        (analyzeContract σ code parsed none sol).storage_access_map ∧
    (analyzeContract σ code parsed (some sp) sol).inner_txn_map =
        (analyzeContract σ code parsed none sol).inner_txn_map ∧
    (analyzeContract σ code parsed (some sp) sol).events =
        (analyzeContract σ code parsed none sol).events ∧
    (analyzeContract σ code parsed (some sp) sol).security_notes =
        (analyzeContract σ code parsed none sol).security_notes ∧
    (analyzeContract σ code parsed (some sp) sol).solidity_mapping =
        (analyzeContract σ code parsed none sol).solidity_mapping ∧
    (analyzeContract σ code parsed (some sp) sol).errors =
        (analyzeContract σ code parsed none sol).errors ∧
    (analyzeContract σ code parsed (some sp) sol).methods =
        ((analyzeContract σ code parsed none sol).methods).map (applyArc32One sp) ∧
    (∀ m ∈ (analyzeContract σ code parsed none sol).methods,
      methodCore (applyArc32One sp m) = methodCore m ∧
      (match arc32LookupByName sp m.name with
       | none => applyArc32One sp m = m
       | some info =>
           (applyArc32One sp m).abi_signature = some (sigOfArc32 m.name info) ∧
           (applyArc32One sp m).description =
             (match info.desc with
              | some d => if d ≠ "" then some d else m.description
              | none => m.description))) := by
  have hper : ∀ m ∈ (analyzeContract σ code parsed none sol).methods,
      methodCore (applyArc32One sp m) = methodCore m ∧
      (match arc32LookupByName sp m.name with
       | none => applyArc32One sp m = m
       | some info =>
           (applyArc32One sp m).abi_signature = some (sigOfArc32 m.name info) ∧
           (applyArc32One sp m).description =
             (match info.desc with
              | some d => if d ≠ "" then some d else m.description
              | none => m.description)) :=
    fun m _ => ⟨applyArc32One_core sp m, applyArc32One_spec sp m⟩
  unfold analyzeContract
  match parsed with
  | .error msg =>
      exact ⟨rfl, rfl, rfl, rfl, rfl, rfl, rfl, rfl, rfl, rfl, rfl, by
        intro m hm; simp [degradedResult] at hm⟩
  | .ok tree =>
      dsimp only
      split
      · exact ⟨rfl, rfl, rfl, rfl, rfl, rfl, rfl, rfl, rfl, rfl, rfl, by
          intro m hm; simp [degradedResult] at hm⟩
      · refine ⟨rfl, rfl, rfl, rfl, rfl, rfl, rfl, ?_, rfl, rfl, rfl, ?_⟩
        · exact analyzeClassBody_notes_arc32 σ code sp sol _ _
        · intro m hm
          exact ⟨applyArc32One_core sp m, applyArc32One_spec sp m⟩

/-!
### C8 — determinism

The analysis is a pure function of its arguments *and* of the iteration
order of the `state_var_names` set (modelled by `σ`).  CPython iterates a
`set[str]` in an order depending on the per-process hash seed, so
byte-identical output across invocations is only guaranteed for a fixed
order; two valid orders can permute a member's `reads_state` /
`writes_state` lists and hence the `storage_access_map`.
-/

/-- C8 as stated is false: on a contract with two state variables both
read by one method, the identity iteration order and the reversed one —
both permutations of the name set, as a set iteration is — produce
different outputs (the reads list is `["x", "y"]` vs `["y", "x"]`). -/
theorem C8_counterexample :
    ¬ ∀ (σ1 σ2 : List String → List String),
        (∀ l, (σ1 l).Perm l) → (∀ l, (σ2 l).Perm l) →
        analyzeContract σ1 "" (.ok twoVarModule) none none =
          analyzeContract σ2 "" (.ok twoVarModule) none none := by
  intro h
  have hc := h id List.reverse (fun l => List.Perm.refl l)
    (fun l => List.reverse_perm l)
  revert hc
  decide

theorem contains_eq_false_of_not_mem {l : List String} {v : String} (h : v ∉ l) :
    l.contains v = false := by
  cases hc : l.contains v
  · rfl
  · exact absurd (by simpa using hc) h

theorem filter_append_singleton (p : String → Bool) (pre : List String) (v : String) :
    (pre ++ [v]).filter p = pre.filter p ++ (if p v then [v] else []) := by
  rw [List.filter_append]
  congr 1
  rw [List.filter_cons]
  cases p v <;> simp

/-- On a fresh variable, the `_find_storage_access` loop step extends the
filter representation of the accumulators. -/
theorem storageAccessStep_filter (src : String) (pre : List String) (v : String)
    (hv : v ∉ pre) :
    storageAccessStep src
        (pre.filter (readsPredOf src), pre.filter (writesPredOf src)) v =
      ((pre ++ [v]).filter (readsPredOf src),
       (pre ++ [v]).filter (writesPredOf src)) := by
  have hrc : (pre.filter (readsPredOf src)).contains v = false :=
    contains_eq_false_of_not_mem (fun hm => hv (List.mem_of_mem_filter hm))
  have hwc : (pre.filter (writesPredOf src)).contains v = false :=
    contains_eq_false_of_not_mem (fun hm => hv (List.mem_of_mem_filter hm))
  unfold storageAccessStep
  dsimp only
  rw [filter_append_singleton, filter_append_singleton]
  cases haug : (augmentedPatterns v).any (fun p => research p src) with
  | true =>
      have hr : readsPredOf src v = true := by
        unfold readsPredOf
        rw [haug, Bool.true_or]
      have hw' : writesPredOf src v = true := by
        unfold writesPredOf
        rw [haug, Bool.true_or]
      simp only [haug, hrc, hwc, hr, hw', Bool.false_eq_true,
        eq_self_iff_true, if_true, if_false]
  | false =>
      have hr : readsPredOf src v =
          ((readPatterns v).any (fun p => research p src) ||
            (directReadPatterns v).any (fun p => research p src)) := by
        unfold readsPredOf
        rw [haug, Bool.false_or]
      have hw' : writesPredOf src v =
          (writePatterns v).any (fun p => research p src) := by
        unfold writesPredOf
        rw [haug, Bool.false_or]
      simp only [haug, Bool.false_eq_true, if_false, hr, hw']
      cases hrd : ((readPatterns v).any (fun p => research p src) ||
          (directReadPatterns v).any (fun p => research p src)) with
      | true =>
          cases hw : (writePatterns v).any (fun p => research p src) with
          | true =>
              simp only [hrd, hw, eq_self_iff_true, if_true]
          | false =>
              simp only [hrd, hw, Bool.false_eq_true, eq_self_iff_true,
                if_true, if_false, List.append_nil]
      | false =>
          cases hw : (writePatterns v).any (fun p => research p src) with
          | true =>
              simp only [hrd, hw, Bool.false_eq_true, eq_self_iff_true,
                if_true, if_false, List.append_nil]
          | false =>
              simp only [hrd, hw, Bool.false_eq_true, if_false,
                List.append_nil]

theorem findStorageAccess_foldl_filter (src : String) :
    ∀ (vars pre : List String), (pre ++ vars).Nodup →
      vars.foldl (storageAccessStep src)
          (pre.filter (readsPredOf src), pre.filter (writesPredOf src)) =
        ((pre ++ vars).filter (readsPredOf src),
         (pre ++ vars).filter (writesPredOf src)) := by
  intro vars
  induction vars with
  | nil => intro pre h; simp
  | cons v vs ih =>
      intro pre h
      have hv : v ∉ pre := by
        intro hmem
        rw [List.nodup_append] at h
        exact h.2.2 hmem (List.mem_cons_self v vs)
      rw [List.foldl_cons, storageAccessStep_filter src pre v hv]
      have heq : pre ++ v :: vs = (pre ++ [v]) ++ vs := by simp
      rw [heq] at h
      have := ih (pre ++ [v]) h
      rw [this, ← heq]

/-- Under a duplicate-free iteration order, `_find_storage_access` is the
pair of filters by the read/write conditions. -/
theorem findStorageAccess_eq_filter (body : List PyStmt) (vars : List String)
    (h : vars.Nodup) :
    findStorageAccess body vars =
      (vars.filter (readsPredOf (bodySource body)),
       vars.filter (writesPredOf (bodySource body))) := by
  have hh := findStorageAccess_foldl_filter (bodySource body) vars []
    (by simpa using h)
  simpa [findStorageAccess] using hh

theorem dedupFirst_go_nodup (l acc : List String) (ha : acc.Nodup) :
    (dedupFirst.go l acc).Nodup := by
  induction l generalizing acc with
  | nil =>
      simp only [dedupFirst.go]
      exact List.nodup_reverse.mpr ha
  | cons x xs ih =>
      simp only [dedupFirst.go]
      by_cases h : x ∈ acc
      · simp only [h, if_true]
        exact ih _ ha
      · simp only [h, if_false]
        exact ih _ (List.nodup_cons.mpr ⟨h, ha⟩)

theorem dedupFirst_nodup (l : List String) : (dedupFirst l).Nodup :=
  dedupFirst_go_nodup l [] List.nodup_nil

/-! Generic congruence lemmas along a `Forall2` relation. -/

theorem forall2_filterMap_congr {α β : Type} {R : α → α → Prop}
    (f : α → Option β) (hf : ∀ a b, R a b → f a = f b) :
    ∀ {l1 l2 : List α}, List.Forall₂ R l1 l2 → l1.filterMap f = l2.filterMap f := by
  intro l1 l2 h
  induction h with
  | nil => rfl
  | cons hab _ ih => simp only [List.filterMap_cons, hf _ _ hab, ih]

theorem forall2_filter_length_congr {α : Type} {R : α → α → Prop}
    (p : α → Bool) (hp : ∀ a b, R a b → p a = p b) :
    ∀ {l1 l2 : List α}, List.Forall₂ R l1 l2 →
      (l1.filter p).length = (l2.filter p).length := by
  intro l1 l2 h
  induction h with
  | nil => rfl
  | cons hab _ ih =>
      simp only [List.filter_cons, hp _ _ hab]
      split <;> simp [ih]

theorem forall2_filter_isEmpty_congr {α : Type} {R : α → α → Prop}
    (p : α → Bool) (hp : ∀ a b, R a b → p a = p b) :
    ∀ {l1 l2 : List α}, List.Forall₂ R l1 l2 →
      (l1.filter p).isEmpty = (l2.filter p).isEmpty := by
  intro l1 l2 h
  induction h with
  | nil => rfl
  | cons hab _ ih =>
      simp only [List.filter_cons, hp _ _ hab]
      split <;> simp [ih]

theorem forall2_any_congr {α : Type} {R : α → α → Prop}
    (q : α → Bool) (hq : ∀ a b, R a b → q a = q b) :
    ∀ {l1 l2 : List α}, List.Forall₂ R l1 l2 → l1.any q = l2.any q := by
  intro l1 l2 h
  induction h with
  | nil => rfl
  | cons hab _ ih => simp only [List.any_cons, hq _ _ hab, ih]

theorem forall2_map_congr {α β : Type} {R : α → α → Prop}
    (g : α → β) (hg : ∀ a b, R a b → g a = g b) :
    ∀ {l1 l2 : List α}, List.Forall₂ R l1 l2 → l1.map g = l2.map g := by
  intro l1 l2 h
  induction h with
  | nil => rfl
  | cons hab _ ih => simp only [List.map_cons, hg _ _ hab, ih]

theorem forall2_flatMap_congr {α β : Type} {R : α → α → Prop}
    (g : α → List β) (hg : ∀ a b, R a b → g a = g b) :
    ∀ {l1 l2 : List α}, List.Forall₂ R l1 l2 → l1.flatMap g = l2.flatMap g := by
  intro l1 l2 h
  induction h with
  | nil => rfl
  | cons hab _ ih => simp only [List.flatMap_cons, hg _ _ hab, ih]

theorem forall2_flatMap_perm {α β : Type} {R : α → α → Prop}
    (g : α → List β) (hg : ∀ a b, R a b → (g a).Perm (g b)) :
    ∀ {l1 l2 : List α}, List.Forall₂ R l1 l2 →
      (l1.flatMap g).Perm (l2.flatMap g) := by
  intro l1 l2 h
  induction h with
  | nil => exact List.Perm.refl _
  | cons hab _ ih =>
      simp only [List.flatMap_cons]
      exact (hg _ _ hab).append ih

theorem forall2_foldl_congr {α γ : Type} {R : α → α → Prop}
    (step : γ → α → γ) (hstep : ∀ acc a b, R a b → step acc a = step acc b) :
    ∀ {l1 l2 : List α}, List.Forall₂ R l1 l2 →
      ∀ acc, l1.foldl step acc = l2.foldl step acc := by
  intro l1 l2 h
  induction h with
  | nil => intro acc; rfl
  | cons hab _ ih =>
      intro acc
      simp only [List.foldl_cons, hstep acc _ _ hab]
      exact ih _

/-- The member scan relates the two orders' entries: everything equal
except the reads/writes lists, which are filters of the two orders. -/
theorem processMember_rel (v1 v2 svn : List String) (hnd1 : v1.Nodup)
    (hperm : v1.Perm v2) (nm : String) (args : List (String × Option PyExpr))
    (body : List PyStmt) (decs : List PyExpr) (ret : Option PyExpr) (ln : Nat) :
    MethodEqExceptRW (processMember v1 svn nm args body decs ret ln).1
        (processMember v2 svn nm args body decs ret ln).1 ∧
    (processMember v1 svn nm args body decs ret ln).2 =
      (processMember v2 svn nm args body decs ret ln).2 := by
  have hnd2 : v2.Nodup := hperm.nodup_iff.mp hnd1
  have hreads : (findStorageAccess body v1).1.Perm (findStorageAccess body v2).1 := by
    rw [findStorageAccess_eq_filter body v1 hnd1,
      findStorageAccess_eq_filter body v2 hnd2]
    exact hperm.filter _
  have hwrites : (findStorageAccess body v1).2.Perm (findStorageAccess body v2).2 := by
    rw [findStorageAccess_eq_filter body v1 hnd1,
      findStorageAccess_eq_filter body v2 hnd2]
    exact hperm.filter _
  unfold processMember
  dsimp only
  cases hab : ((decs.map getDecoratorName).any (fun d => strIn "abimethod" d) ||
      (decs.map getDecoratorName).any (fun d => strIn "baremethod" d)) with
  | true =>
      simp only [hab, eq_self_iff_true, if_true]
      exact ⟨⟨rfl, rfl, rfl, hreads, hwrites, rfl, rfl, rfl, rfl, rfl, rfl,
        rfl, rfl, rfl, rfl, rfl⟩, trivial⟩
  | false =>
      simp only [hab, Bool.false_eq_true, if_false]
      cases hsub : (decs.map getDecoratorName).any (fun d => strIn "subroutine" d) with
      | true =>
          simp only [hsub, eq_self_iff_true, if_true]
          exact ⟨⟨rfl, rfl, rfl, hreads, hwrites, rfl, rfl, rfl, rfl, rfl, rfl,
            rfl, rfl, rfl, rfl, rfl⟩, trivial⟩
      | false =>
          simp only [hsub, Bool.false_eq_true, if_false]
          exact ⟨⟨rfl, rfl, rfl, hreads, hwrites, rfl, rfl, rfl, rfl, rfl, rfl,
            rfl, rfl, rfl, rfl, rfl⟩, trivial⟩

/-- The per-entry relation of the member-extraction loop. -/
def EntryRel (p q : MethodInfo × Bool) : Prop :=
  MethodEqExceptRW p.1 q.1 ∧ p.2 = q.2

theorem memberEntriesOf_rel (v1 v2 svn : List String) (hnd1 : v1.Nodup)
    (hperm : v1.Perm v2) (clsBody : List PyStmt) :
    List.Forall₂ EntryRel (memberEntriesOf v1 svn clsBody)
      (memberEntriesOf v2 svn clsBody) := by
  induction clsBody with
  | nil => exact List.Forall₂.nil
  | cons st sts ih =>
      unfold memberEntriesOf at ih ⊢
      rw [List.filterMap_cons, List.filterMap_cons]
      cases st
      case funcDef nm args body decs ret ln =>
        by_cases hi : nm = "__init__"
        · simp only [hi, eq_self_iff_true, if_true]
          exact ih
        · simp only [hi, if_false]
          exact List.Forall₂.cons
            (processMember_rel v1 v2 svn hnd1 hperm nm args body decs ret ln) ih
      all_goals exact ih

theorem entries_rel_lift {l1 l2 : List (MethodInfo × Bool)}
    (h : List.Forall₂ EntryRel l1 l2) :
    List.Forall₂ MethodEqExceptRW ((l1.filter (·.2)).map (·.1))
        ((l2.filter (·.2)).map (·.1)) ∧
    List.Forall₂ MethodEqExceptRW ((l1.filter (fun e => !e.2)).map (·.1))
        ((l2.filter (fun e => !e.2)).map (·.1)) := by
  induction h with
  | nil => exact ⟨List.Forall₂.nil, List.Forall₂.nil⟩
  | cons hab htail ih =>
      rcases hab with ⟨hm, ht⟩
      constructor
      · simp only [List.filter_cons, ht]
        split
        · simp only [List.map_cons]
          exact List.Forall₂.cons hm ih.1
        · exact ih.1
      · simp only [List.filter_cons, ht]
        split
        · simp only [List.map_cons]
          exact List.Forall₂.cons hm ih.2
        · exact ih.2

theorem applyArc32One_rel (j : Arc32Json) {m1 m2 : MethodInfo}
    (h : MethodEqExceptRW m1 m2) :
    MethodEqExceptRW (applyArc32One j m1) (applyArc32One j m2) := by
  obtain ⟨hn, hp, hrt, hr, hw, hc, hit, he, hg, hl, hd, hro, hcr, haa, habi, hdesc⟩ := h
  unfold applyArc32One
  rw [hn]
  cases hl2 : arc32LookupByName j m2.name with
  | none =>
      simp only [hl2]
      exact ⟨hn, hp, hrt, hr, hw, hc, hit, he, hg, hl, hd, hro, hcr, haa, habi, hdesc⟩
  | some info =>
      simp only [hl2]
      cases hde : info.desc with
      | none =>
          simp only [hde]
          exact ⟨rfl, hp, hrt, hr, hw, hc, hit, he, hg, hl, hd, hro, hcr, haa, rfl, hdesc⟩
      | some d =>
          simp only [hde]
          split
          · exact ⟨rfl, hp, hrt, hr, hw, hc, hit, he, hg, hl, hd, hro, hcr, haa, rfl, rfl⟩
          · exact ⟨rfl, hp, hrt, hr, hw, hc, hit, he, hg, hl, hd, hro, hcr, haa, rfl, hdesc⟩

theorem forall2_applyArc32 (a : Option Arc32Json) {l1 l2 : List MethodInfo}
    (h : List.Forall₂ MethodEqExceptRW l1 l2) :
    List.Forall₂ MethodEqExceptRW (applyArc32 a l1) (applyArc32 a l2) := by
  cases a with
  | none => exact h
  | some j =>
      simp only [applyArc32]
      induction h with
      | nil => exact List.Forall₂.nil
      | cons hab _ ih =>
          simp only [List.map_cons]
          exact List.Forall₂.cons (applyArc32One_rel j hab) ih

/-- The notes depend only on merge-order-invariant fields of the
methods (and, as in the source, not on the subroutines at all). -/
theorem generateSecurityNotes_rel {ms1 ms2 s1 s2 : List MethodInfo}
    (h : List.Forall₂ MethodEqExceptRW ms1 ms2) :
    generateSecurityNotes ms1 s1 = generateSecurityNotes ms2 s2 := by
  unfold generateSecurityNotes
  have hwarn := forall2_filterMap_congr
    (fun m : MethodInfo =>
      if m.guards_count = 0 && !m.is_readonly then
        some ({ type := "warning",
                message := "Method '" ++ m.name ++
                  "' has no assertion guards — consider adding sender/state checks.",
                method := some m.name } : SecurityNote)
      else none)
    (fun a b hab => by
      obtain ⟨hn, _, _, _, _, _, _, _, hg, _, _, hro, _, _, _, _⟩ := hab
      simp only [hn, hg, hro]) h
  have hdang := forall2_filterMap_congr
    (fun m : MethodInfo =>
      if !m.inner_txns.isEmpty && m.guards_count = 0 then
        some ({ type := "danger",
                message := "Method '" ++ m.name ++
                  "' makes inner transactions without any assertion guards!",
                method := some m.name } : SecurityNote)
      else none)
    (fun a b hab => by
      obtain ⟨hn, _, _, _, _, _, hit, _, hg, _, _, _, _, _, _, _⟩ := hab
      simp only [hn, hg, hit]) h
  have hg1 := forall2_filter_length_congr
    (fun m : MethodInfo => decide (m.guards_count > 0) && !m.is_readonly)
    (fun a b hab => by
      obtain ⟨_, _, _, _, _, _, _, _, hg, _, _, hro, _, _, _, _⟩ := hab
      simp only [hg, hro]) h
  have hg2 := forall2_filter_length_congr (fun m : MethodInfo => !m.is_readonly)
    (fun a b hab => by
      obtain ⟨_, _, _, _, _, _, _, _, _, _, _, hro, _, _, _, _⟩ := hab
      simp only [hro]) h
  have hg3 := forall2_filter_isEmpty_congr (fun m : MethodInfo => !m.is_readonly)
    (fun a b hab => by
      obtain ⟨_, _, _, _, _, _, _, _, _, _, _, hro, _, _, _, _⟩ := hab
      simp only [hro]) h
  have hg4 := forall2_any_congr (fun m : MethodInfo => m.is_create)
    (fun a b hab => by
      obtain ⟨_, _, _, _, _, _, _, _, _, _, _, _, hcr, _, _, _⟩ := hab
      simp only [hcr]) h
  simp only [hwarn, hdang, hg1, hg2, hg3, hg4]

/-- Forall₂ commutes with append. -/
theorem forall2_append {α : Type} {R : α → α → Prop} {l1 l2 u1 u2 : List α}
    (h : List.Forall₂ R l1 l2) (h' : List.Forall₂ R u1 u2) :
    List.Forall₂ R (l1 ++ u1) (l2 ++ u2) := by
  induction h with
  | nil => exact h'
  | cons hab _ ih => exact List.Forall₂.cons hab ih

/-- The class-body analysis under two valid set-iteration orders agrees
up to reads/writes order. -/
theorem analyzeClassBody_rel (σ1 σ2 : List String → List String)
    (h1 : ∀ l, (σ1 l).Perm l) (h2 : ∀ l, (σ2 l).Perm l)
    (code : String) (a : Option Arc32Json) (s : Option String)
    (cn : String) (body : List PyStmt) :
    EqUpToSetOrder (analyzeClassBody σ1 code a s cn body)
      (analyzeClassBody σ2 code a s cn body) := by
  have hperm : (σ1 (dedupFirst ((stateVariablesOf body).map (·.name)))).Perm
      (σ2 (dedupFirst ((stateVariablesOf body).map (·.name)))) :=
    (h1 _).trans (h2 _).symm
  have hnd1 : (σ1 (dedupFirst ((stateVariablesOf body).map (·.name)))).Nodup :=
    (h1 _).nodup_iff.mpr (dedupFirst_nodup _)
  have hent := memberEntriesOf_rel _ _ ((stateVariablesOf body).map (·.name))
    hnd1 hperm body
  have hlift := entries_rel_lift hent
  have hm := hlift.1
  have hs := hlift.2
  have hall := forall2_append hm hs
  have hnm := forall2_map_congr (fun m : MethodInfo => m.name)
    (fun a b hab => hab.1) hm
  have hns := forall2_map_congr (fun m : MethodInfo => m.name)
    (fun a b hab => hab.1) hs
  refine ⟨rfl, rfl, ?_, ?_, ?_, ?_, ?_, ?_, ?_, rfl, rfl⟩
  · exact forall2_applyArc32 a hm
  · exact hs
  · show callGraphOf _ _ = callGraphOf _ _
    rw [hnm, hns]
    simp only [callGraphOf]
    refine forall2_flatMap_congr _ ?_ hall
    intro x y hab
    obtain ⟨hn, _, _, _, _, hc, _, _, _, _, _, _, _, _, _, _⟩ := hab
    simp only [hn, hc]
  · show (storageMapOf _).Perm (storageMapOf _)
    simp only [storageMapOf]
    refine forall2_flatMap_perm _ ?_ hall
    intro x y hab
    obtain ⟨hn, _, _, hr, hw, _, _, _, _, _, _, _, _, _, _, _⟩ := hab
    rw [hn]
    exact (hr.map _).append (hw.map _)
  · show innerTxnMapOf _ = innerTxnMapOf _
    simp only [innerTxnMapOf]
    refine forall2_flatMap_congr _ ?_ hall
    intro x y hab
    obtain ⟨hn, _, _, _, _, _, hit, _, _, _, _, _, _, _, _, _⟩ := hab
    simp only [hn, hit]
  · show eventsListOf _ = eventsListOf _
    simp only [eventsListOf]
    rw [forall2_foldl_congr _ ?_ hall []]
    intro acc x y hab
    obtain ⟨hn, _, _, _, _, _, _, he, _, _, _, _, _, _, _, _⟩ := hab
    simp only [hn, he]
  · unfold analyzeClassBody
    dsimp only
    exact @generateSecurityNotes_rel _ _ _ _ (forall2_applyArc32 a hm)

/-- C8 (amended): the output is a pure function of the input triple *and*
the iteration order of the state-variable name set; two valid iteration
orders (e.g. two processes with different hash seeds) yield results
identical in every part except that each member's `reads_state` /
`writes_state` lists — and correspondingly the `storage_access_map` —
may be permuted.  For a fixed order (in particular, within one process)
the output is byte-identical. -/
theorem C8_amended_deterministic_up_to_set_order
    (σ1 σ2 : List String → List String)
    (h1 : ∀ l, (σ1 l).Perm l) (h2 : ∀ l, (σ2 l).Perm l)
    (code : String) (parsed : Except String PyModule)
    (a : Option Arc32Json) (s : Option String) :
    EqUpToSetOrder (analyzeContract σ1 code parsed a s)
      (analyzeContract σ2 code parsed a s) := by
  unfold analyzeContract
  match parsed with
  | .error msg =>
      exact ⟨rfl, rfl, List.Forall₂.nil, List.Forall₂.nil, rfl,
        List.Perm.refl _, rfl, rfl, rfl, rfl, rfl⟩
  | .ok tree =>
      dsimp only
      split
      · exact ⟨rfl, rfl, List.Forall₂.nil, List.Forall₂.nil, rfl,
          List.Perm.refl _, rfl, rfl, rfl, rfl, rfl⟩
      · exact analyzeClassBody_rel σ1 σ2 h1 h2 code a s _ _

/-- Witness for the amended C8: the identity and reversed orders on the
two-variable contract. -/
theorem C8_amended_deterministic_up_to_set_order_witness :
    EqUpToSetOrder (analyzeContract id "" (.ok twoVarModule) none none)
      (analyzeContract List.reverse "" (.ok twoVarModule) none none) :=
  C8_amended_deterministic_up_to_set_order id List.reverse
    (fun l => List.Perm.refl l) (fun l => List.reverse_perm l)
    "" (.ok twoVarModule) none none

end AlgoMint
